import Mathlib

/-!
Verification development for the pixelcnn repository.

The repository builds a PixelCNN++-style autoregressive image model
(src/pixelcnn/pixelcnn.py) and trains it with a fixed driver script
(src/scripts/train.py).  The network-assembly code composes primitives
(down_shifted_conv2d, down_right_shifted_conv2d, down_shift, right_shift,
concat_elu, gated_resnet) that live in repository modules which are not
part of the provided sources; those primitives are modelled here from the
specification, sections 4.1 to 4.3, and every such definition is marked
with a doc comment starting with the words Modelled from the spec.

Two embeddings are developed:
  - a value-level embedding of the tensor pipeline, where a feature map is
    a function from integer coordinates and a channel index to a rational
    number (zero padding outside the image grid is made explicit); this
    level settles the causality hyperproperty of the two streams;
  - a structural embedding of the Keras layer graph as a list of nodes,
    which settles the wiring claims (auxiliary inputs of the gated blocks,
    conditioning injection, declared input shapes);
together with a shape calculus for the output-shape claims and a direct
embedding of the arithmetic of the training driver.
-/

namespace Pcnn

/-- A feature map: row, column (integers, so that reads outside the image
are explicit) and channel index to a rational value.  The real pipeline
carries tensors of a fixed spatial extent; here every tensor is total and
each primitive masks its reads to the image grid, which models the
zero-padding and cropping performed by the source. -/
def Tensor : Type := ℤ → ℤ → ℕ → ℚ

/-- Position (r, c) lies inside an h by w image grid. -/
def inGrid (h w : ℕ) (r c : ℤ) : Prop :=
  0 ≤ r ∧ r < (h : ℤ) ∧ 0 ≤ c ∧ c < (w : ℤ)

instance (h w : ℕ) (r c : ℤ) : Decidable (inGrid h w r c) :=
  inferInstanceAs (Decidable (_ ∧ _ ∧ _ ∧ _))

/-- Read a tensor with zero padding outside the image grid.  This models
the constant zero values that tf.pad places around the image before a
valid convolution. -/
def readPad (h w : ℕ) (x : Tensor) (r c : ℤ) (k : ℕ) : ℚ :=
  if inGrid h w r c then x r c k else 0

/-- Modelled from the spec: the repository module pixelcnn/ops.py is not
under src/.  Spec 4.1 describes the causal convolutions as padding the
input asymmetrically before a normal valid convolution.  This is the
common core: a 2-D convolution over an h by w grid whose kernel window at
output position (r, c) covers input rows r - pt .. r - pt + kh - 1 and
columns c - pl .. c - pl + kw - 1, reading zeros outside the grid, with a
bias per output channel. -/
def conv2dP (h w : ℕ) (pt pl kh kw Cin Cout : ℕ)
    (Wt : ℕ → ℕ → ℕ → ℕ → ℚ) (bias : ℕ → ℚ) (x : Tensor) : Tensor :=
  fun r c o =>
    if o < Cout then
      bias o + ∑ i ∈ Finset.range kh, ∑ j ∈ Finset.range kw,
        ∑ ci ∈ Finset.range Cin,
          Wt i j ci o * readPad h w x (r + (i : ℤ) - (pt : ℤ)) (c + (j : ℤ) - (pl : ℤ)) ci
    else 0

/-- Modelled from the spec: pixelcnn/ops.py is not under src/.  Spec 4.1:
the down-shifted convolution pads kh - 1 rows on top and (kw - 1) / 2
columns on each side, so the window at (r, c) covers rows up to and
including r and is horizontally centred. -/
def down_shifted_conv2d (h w kh kw Cin Cout : ℕ)
    (Wt : ℕ → ℕ → ℕ → ℕ → ℚ) (bias : ℕ → ℚ) (x : Tensor) : Tensor :=
  conv2dP h w (kh - 1) ((kw - 1) / 2) kh kw Cin Cout Wt bias x

/-- Modelled from the spec: pixelcnn/ops.py is not under src/.  Spec 4.1:
the down-right-shifted convolution pads kh - 1 rows on top and kw - 1
columns on the left, so the window at (r, c) covers rows up to r and
columns up to c. -/
def down_right_shifted_conv2d (h w kh kw Cin Cout : ℕ)
    (Wt : ℕ → ℕ → ℕ → ℕ → ℚ) (bias : ℕ → ℚ) (x : Tensor) : Tensor :=
  conv2dP h w (kh - 1) (kw - 1) kh kw Cin Cout Wt bias x

/-- Modelled from the spec: pixelcnn/ops.py is not under src/.  Spec 4.1:
insert a zero row on top and drop the bottom row, removing the current
row from its own receptive field. -/
def down_shift (h w : ℕ) (x : Tensor) : Tensor :=
  fun r c k => if inGrid h w (r - 1) c then x (r - 1) c k else 0

/-- Modelled from the spec: pixelcnn/ops.py is not under src/.  Spec 4.1:
insert a zero column on the left and drop the rightmost column. -/
def right_shift (h w : ℕ) (x : Tensor) : Tensor :=
  fun r c k => if inGrid h w r (c - 1) then x r (c - 1) k else 0

/-- Modelled from the spec: pixelcnn/ops.py is not under src/.  Spec 4.2:
the concatenated ELU maps channel depth C to 2 * C by concatenating the
activation of the tensor with the activation of its negation.  The scalar
activation is a parameter because the exponential-linear unit is a real
transcendental function; every theorem below holds for an arbitrary
pointwise scalar activation, which subsumes the ELU. -/
def concat_elu (eluF : ℚ → ℚ) (C : ℕ) (x : Tensor) : Tensor :=
  fun r c k =>
    if k < C then eluF (x r c k)
    else if k < 2 * C then eluF (-(x r c (k - C)))
    else 0

/-- The discrete image is mapped through a lookup-table embedding of width
filters: source lines 62 and 63 of src/pixelcnn/pixelcnn.py (a
TimeDistributed Embedding layer with filters output dimensions). -/
def embedImage (filters : ℕ) (E : ℕ → ℕ → ℚ) (I : ℤ → ℤ → ℕ) : Tensor :=
  fun r c k => if k < filters then E (I r c) k else 0

/-- The padding_backend helper of src/pixelcnn/pixelcnn.py lines 55 to 59:
tf.pad with paddings [[0,0],[0,0],[0,0],[0,1]] and constant value 1
appends exactly one channel holding the constant 1 on the right of the
channel axis and leaves every existing channel unchanged. -/
def padBorderT (C : ℕ) (x : Tensor) : Tensor :=
  fun r c k =>
    if k < C then x r c k
    else if k = C then 1
    else 0

/-- The embedded-and-border-padded image that enters the initial causal
convolutions: src/pixelcnn/pixelcnn.py lines 61 to 66 (embedding lookup
followed by the padding_backend Lambda layer). -/
def imagesEmbedding (filters : ℕ) (E : ℕ → ℕ → ℚ) (I : ℤ → ℤ → ℕ) : Tensor :=
  padBorderT filters (embedImage filters E I)

/-- The learned parameters of one gated residual block: the two causal
convolutions, the 1 by 1 convolution over the auxiliary stream, the 1 by 1
convolution over the conditioning tensor, and a dropout mask (an arbitrary
pointwise multiplier, covering both the identity at evaluation time and
any random scaling during training). -/
structure GRW where
  w1 : ℕ → ℕ → ℕ → ℕ → ℚ
  b1 : ℕ → ℚ
  wa : ℕ → ℕ → ℕ → ℕ → ℚ
  ba : ℕ → ℚ
  dropMask : ℤ → ℤ → ℕ → ℚ
  w2 : ℕ → ℕ → ℕ → ℕ → ℚ
  b2 : ℕ → ℚ
  wh : ℕ → ℕ → ℕ → ℕ → ℚ
  bh : ℕ → ℚ

/-- Modelled from the spec (pixelcnn/gated_resnet.py is not under src/),
spec 4.3 step 1: apply the nonlinearity to the primary stream and convolve
causally, producing an intermediate of width F. -/
def grStage1 (conv2d : ℕ → ℕ → ℕ → ℕ → (ℕ → ℕ → ℕ → ℕ → ℚ) → (ℕ → ℚ) → Tensor → Tensor)
    (kh kw F : ℕ) (eluF : ℚ → ℚ) (Wt : GRW) (x : Tensor) : Tensor :=
  conv2d kh kw (2 * F) F Wt.w1 Wt.b1 (concat_elu eluF F x)

/-- Modelled from the spec, spec 4.3 step 2: if a second stream is
present, apply the nonlinearity and a 1 by 1 convolution to it and add it
to the intermediate. -/
def grStage2 (hIm wIm F : ℕ) (eluF : ℚ → ℚ) (Wt : GRW)
    (c1 : Tensor) (a : Option Tensor) : Tensor :=
  match a with
  | none => c1
  | some av => fun r c k =>
      c1 r c k +
        conv2dP hIm wIm 0 0 1 1 (2 * F) F Wt.wa Wt.ba (concat_elu eluF F av) r c k

/-- Modelled from the spec, spec 4.3 step 3: apply the nonlinearity,
dropout, and a second causal convolution producing width 2 * F. -/
def grStage3 (conv2d : ℕ → ℕ → ℕ → ℕ → (ℕ → ℕ → ℕ → ℕ → ℚ) → (ℕ → ℚ) → Tensor → Tensor)
    (kh kw F : ℕ) (eluF : ℚ → ℚ) (Wt : GRW) (c1a : Tensor) : Tensor :=
  conv2d kh kw (2 * F) (2 * F) Wt.w2 Wt.b2
    (fun r c k => Wt.dropMask r c k * concat_elu eluF F c1a r c k)

/-- Modelled from the spec, spec 4.3 step 4: if a conditioning tensor is
present, project it with a 1 by 1 convolution to width 2 * F and add. -/
def grStage4 (hIm wIm F Ch : ℕ) (Wt : GRW) (c2 : Tensor) (hc : Option Tensor) : Tensor :=
  match hc with
  | none => c2
  | some hv => fun r c k =>
      c2 r c k + conv2dP hIm wIm 0 0 1 1 Ch (2 * F) Wt.wh Wt.bh hv r c k

/-- Modelled from the spec: the repository module pixelcnn/gated_resnet.py
is not under src/.  Spec 4.3: the four stages above, then step 5, split
the 2 * F wide tensor into two F wide halves and multiply the first half
by the sigmoid of the second, and step 6, add the gated result to the
original primary-stream input.  The causal convolution is a parameter, as
in the source, and the sigmoid is an arbitrary scalar function parameter
for the same reason as the activation. -/
def gated_resnet (hIm wIm : ℕ)
    (conv2d : ℕ → ℕ → ℕ → ℕ → (ℕ → ℕ → ℕ → ℕ → ℚ) → (ℕ → ℚ) → Tensor → Tensor)
    (kh kw F Ch : ℕ) (eluF sigF : ℚ → ℚ) (Wt : GRW)
    (x : Tensor) (a : Option Tensor) (hc : Option Tensor) : Tensor :=
  fun r c k =>
    x r c k +
      grStage4 hIm wIm F Ch Wt
          (grStage3 conv2d kh kw F eluF Wt
            (grStage2 hIm wIm F eluF Wt (grStage1 conv2d kh kw F eluF Wt x) a))
          hc r c k *
        sigF (grStage4 hIm wIm F Ch Wt
          (grStage3 conv2d kh kw F eluF Wt
            (grStage2 hIm wIm F eluF Wt (grStage1 conv2d kh kw F eluF Wt x) a))
          hc r c (k + F))

/-- The learned parameters of the whole two-stream pipeline: the embedding
table, the three initial causal convolutions, and one pair of gated-block
parameter bundles per layer of the main loop. -/
structure PCW where
  embedT : ℕ → ℕ → ℚ
  wTop : ℕ → ℕ → ℕ → ℕ → ℚ
  bTop : ℕ → ℚ
  wTLa : ℕ → ℕ → ℕ → ℕ → ℚ
  bTLa : ℕ → ℚ
  wTLb : ℕ → ℕ → ℕ → ℕ → ℚ
  bTLb : ℕ → ℚ
  grTop : ℕ → GRW
  grTL : ℕ → GRW

/-- The two causal streams of PixelCNN and ConditionalPixelCNN,
src/pixelcnn/pixelcnn.py lines 72 to 106 and 224 to 260: the initial
top stream is down_shift of a (2, 3) down-shifted convolution of the
embedded padded image; the initial top-left stream is the sum of
down_shift of a (1, 3) down-shifted convolution and right_shift of a
(2, 1) down-right-shifted convolution; then n iterations of the loop, in
which the top stream passes through a gated block with the down-shifted
(2, 3) convolution and no auxiliary input, and the top-left stream passes
through a gated block with the down-right-shifted (2, 2) convolution whose
auxiliary input a is the freshly updated top stream.  The optional
conditioning tensor hc (the upsampled conditional embedding of
ConditionalPixelCNN, absent in PixelCNN) is fed to every gated block of
both streams, identically in both variants of the source. -/
def pixelStreams (hIm wIm F Ch : ℕ) (eluF sigF : ℚ → ℚ) (Wt : PCW)
    (hc : Option Tensor) (I : ℤ → ℤ → ℕ) : ℕ → Tensor × Tensor
  | 0 =>
    (down_shift hIm wIm
        (down_shifted_conv2d hIm wIm 2 3 (F + 1) F Wt.wTop Wt.bTop
          (imagesEmbedding F Wt.embedT I)),
     fun r c k =>
       down_shift hIm wIm
           (down_shifted_conv2d hIm wIm 1 3 (F + 1) F Wt.wTLa Wt.bTLa
             (imagesEmbedding F Wt.embedT I)) r c k +
         right_shift hIm wIm
           (down_right_shifted_conv2d hIm wIm 2 1 (F + 1) F Wt.wTLb Wt.bTLb
             (imagesEmbedding F Wt.embedT I)) r c k)
  | n + 1 =>
    (gated_resnet hIm wIm (down_shifted_conv2d hIm wIm) 2 3 F Ch eluF sigF
        (Wt.grTop n) (pixelStreams hIm wIm F Ch eluF sigF Wt hc I n).1 none hc,
     gated_resnet hIm wIm (down_right_shifted_conv2d hIm wIm) 2 2 F Ch eluF sigF
        (Wt.grTL n) (pixelStreams hIm wIm F Ch eluF sigF Wt hc I n).2
        (some (gated_resnet hIm wIm (down_shifted_conv2d hIm wIm) 2 3 F Ch eluF sigF
          (Wt.grTop n) (pixelStreams hIm wIm F Ch eluF sigF Wt hc I n).1 none hc))
        hc)

/-- Two tensors agree at every position in rows up to r (all columns, all
channels). -/
def EqLE (r : ℤ) (x y : Tensor) : Prop :=
  ∀ a b k, a ≤ r → x a b k = y a b k

/-- Two tensors agree at every position in the rectangle of rows up to r
and columns up to c. -/
def EqRect (r c : ℤ) (x y : Tensor) : Prop :=
  ∀ a b k, a ≤ r → b ≤ c → x a b k = y a b k

/-- Two input images agree at every grid position strictly above row r. -/
def agreeRowsLT (h w : ℕ) (I J : ℤ → ℤ → ℕ) (r : ℤ) : Prop :=
  ∀ a b, inGrid h w a b → a < r → I a b = J a b

/-- Two input images agree at every grid position strictly before (r, c)
in raster order. -/
def agreeRaster (h w : ℕ) (I J : ℤ → ℤ → ℕ) (r c : ℤ) : Prop :=
  ∀ a b, inGrid h w a b → (a < r ∨ (a = r ∧ b < c)) → I a b = J a b

lemma agreeRaster_rowsLT {h w : ℕ} {I J : ℤ → ℤ → ℕ} {r c : ℤ}
    (H : agreeRaster h w I J r c) : agreeRowsLT h w I J r :=
  fun a b hg hlt => H a b hg (Or.inl hlt)

lemma eqLE_to_eqRect {r c : ℤ} {x y : Tensor} (H : EqLE r x y) : EqRect r c x y :=
  fun a b k ha _ => H a b k ha

lemma readPad_congr {h w : ℕ} {x y : Tensor} {r c : ℤ} {k : ℕ}
    (H : inGrid h w r c → x r c k = y r c k) :
    readPad h w x r c k = readPad h w y r c k := by
  unfold readPad
  split
  case isTrue hg => exact H hg
  case isFalse => rfl

/-- Master congruence for the padded convolution: if the two inputs agree
at every grid position of the kernel window of (r, c), the outputs agree
at (r, c) on every channel. -/
lemma conv2dP_congr {h w pt pl kh kw Ci Co : ℕ}
    {Wt : ℕ → ℕ → ℕ → ℕ → ℚ} {bias : ℕ → ℚ} {x y : Tensor} {r c : ℤ}
    (hx : ∀ i j : ℕ, i < kh → j < kw →
      inGrid h w (r + (i : ℤ) - (pt : ℤ)) (c + (j : ℤ) - (pl : ℤ)) →
      ∀ k, x (r + (i : ℤ) - (pt : ℤ)) (c + (j : ℤ) - (pl : ℤ)) k
         = y (r + (i : ℤ) - (pt : ℤ)) (c + (j : ℤ) - (pl : ℤ)) k) :
    ∀ o, conv2dP h w pt pl kh kw Ci Co Wt bias x r c o
       = conv2dP h w pt pl kh kw Ci Co Wt bias y r c o := by
  intro o
  unfold conv2dP
  split
  case isTrue =>
    congr 1
    refine Finset.sum_congr rfl fun i hi => ?_
    refine Finset.sum_congr rfl fun j hj => ?_
    refine Finset.sum_congr rfl fun ci _ => ?_
    congr 1
    exact readPad_congr fun hg =>
      hx i j (Finset.mem_range.mp hi) (Finset.mem_range.mp hj) hg ci
  case isFalse => rfl

/-- A convolution whose vertical window never extends below the current
row (kh at most pt + 1) preserves agreement on rows up to r. -/
lemma conv2dP_eqLE {h w pt pl kh kw Ci Co : ℕ}
    {Wt : ℕ → ℕ → ℕ → ℕ → ℚ} {bias : ℕ → ℚ} {x y : Tensor} {r : ℤ}
    (hkh : kh ≤ pt + 1) (hx : EqLE r x y) :
    EqLE r (conv2dP h w pt pl kh kw Ci Co Wt bias x)
           (conv2dP h w pt pl kh kw Ci Co Wt bias y) := by
  intro a b k hab
  refine conv2dP_congr (fun i j hi _ _ kk => hx _ _ kk ?_) k
  have hi2 : (i : ℤ) ≤ (pt : ℤ) := by exact_mod_cast Nat.lt_succ_iff.mp (lt_of_lt_of_le hi hkh)
  omega

/-- A convolution whose window never extends below the current row nor to
the right of the current column preserves agreement on a lower-left
rectangle. -/
lemma conv2dP_eqRect {h w pt pl kh kw Ci Co : ℕ}
    {Wt : ℕ → ℕ → ℕ → ℕ → ℚ} {bias : ℕ → ℚ} {x y : Tensor} {r c : ℤ}
    (hkh : kh ≤ pt + 1) (hkw : kw ≤ pl + 1) (hx : EqRect r c x y) :
    EqRect r c (conv2dP h w pt pl kh kw Ci Co Wt bias x)
               (conv2dP h w pt pl kh kw Ci Co Wt bias y) := by
  intro a b k hab hbc
  refine conv2dP_congr (fun i j hi hj _ kk => hx _ _ kk ?_ ?_) k
  · have hi2 : (i : ℤ) ≤ (pt : ℤ) := by exact_mod_cast Nat.lt_succ_iff.mp (lt_of_lt_of_le hi hkh)
    omega
  · have hj2 : (j : ℤ) ≤ (pl : ℤ) := by exact_mod_cast Nat.lt_succ_iff.mp (lt_of_lt_of_le hj hkw)
    omega

lemma concat_elu_congr {eluF : ℚ → ℚ} {C : ℕ} {x y : Tensor} {r c : ℤ}
    (hx : ∀ k, x r c k = y r c k) :
    ∀ k, concat_elu eluF C x r c k = concat_elu eluF C y r c k := by
  intro k
  unfold concat_elu
  split
  case isTrue => rw [hx]
  case isFalse =>
    split
    case isTrue => rw [hx]
    case isFalse => rfl

lemma concat_elu_eqLE {eluF : ℚ → ℚ} {C : ℕ} {x y : Tensor} {r : ℤ}
    (hx : EqLE r x y) : EqLE r (concat_elu eluF C x) (concat_elu eluF C y) :=
  fun a b k hab => concat_elu_congr (fun kk => hx a b kk hab) k

lemma concat_elu_eqRect {eluF : ℚ → ℚ} {C : ℕ} {x y : Tensor} {r c : ℤ}
    (hx : EqRect r c x y) : EqRect r c (concat_elu eluF C x) (concat_elu eluF C y) :=
  fun a b k hab hbc => concat_elu_congr (fun kk => hx a b kk hab hbc) k

lemma down_shifted_conv2d_eqLE {h w kh kw Ci Co : ℕ}
    {Wt : ℕ → ℕ → ℕ → ℕ → ℚ} {bias : ℕ → ℚ} {x y : Tensor} {r : ℤ}
    (hx : EqLE r x y) :
    EqLE r (down_shifted_conv2d h w kh kw Ci Co Wt bias x)
           (down_shifted_conv2d h w kh kw Ci Co Wt bias y) := by
  unfold down_shifted_conv2d
  exact conv2dP_eqLE (by omega) hx

lemma down_right_shifted_conv2d_eqRect {h w kh kw Ci Co : ℕ}
    {Wt : ℕ → ℕ → ℕ → ℕ → ℚ} {bias : ℕ → ℚ} {x y : Tensor} {r c : ℤ}
    (hx : EqRect r c x y) :
    EqRect r c (down_right_shifted_conv2d h w kh kw Ci Co Wt bias x)
               (down_right_shifted_conv2d h w kh kw Ci Co Wt bias y) := by
  unfold down_right_shifted_conv2d
  exact conv2dP_eqRect (by omega) (by omega) hx

lemma dropmul_eqLE {m : ℤ → ℤ → ℕ → ℚ} {x y : Tensor} {r : ℤ} (hx : EqLE r x y) :
    EqLE r (fun a b k => m a b k * x a b k) (fun a b k => m a b k * y a b k) :=
  fun a b k hab => by
    show m a b k * x a b k = m a b k * y a b k
    rw [hx a b k hab]

lemma dropmul_eqRect {m : ℤ → ℤ → ℕ → ℚ} {x y : Tensor} {r c : ℤ} (hx : EqRect r c x y) :
    EqRect r c (fun a b k => m a b k * x a b k) (fun a b k => m a b k * y a b k) :=
  fun a b k hab hbc => by
    show m a b k * x a b k = m a b k * y a b k
    rw [hx a b k hab hbc]

lemma addRight_eqLE {z x y : Tensor} {r : ℤ} (hx : EqLE r x y) :
    EqLE r (fun a b k => x a b k + z a b k) (fun a b k => y a b k + z a b k) :=
  fun a b k hab => by
    show x a b k + z a b k = y a b k + z a b k
    rw [hx a b k hab]

lemma addRight_eqRect {z x y : Tensor} {r c : ℤ} (hx : EqRect r c x y) :
    EqRect r c (fun a b k => x a b k + z a b k) (fun a b k => y a b k + z a b k) :=
  fun a b k hab hbc => by
    show x a b k + z a b k = y a b k + z a b k
    rw [hx a b k hab hbc]

lemma add2_eqRect {x y z v : Tensor} {r c : ℤ}
    (h1 : EqRect r c x y) (h2 : EqRect r c z v) :
    EqRect r c (fun a b k => x a b k + z a b k) (fun a b k => y a b k + v a b k) :=
  fun a b k hab hbc => by
    show x a b k + z a b k = y a b k + v a b k
    rw [h1 a b k hab hbc, h2 a b k hab hbc]

/-- The gated block of the top stream (down-shifted convolutions, no
auxiliary input): if the two runs agree on all rows up to r, so do the
block outputs, with an identical conditioning tensor in both runs. -/
lemma gated_resnet_ds_eqLE {hIm wIm kh kw F Ch : ℕ} {eluF sigF : ℚ → ℚ} {Wt : GRW}
    {hc : Option Tensor} {x y : Tensor} {r : ℤ} (hx : EqLE r x y) :
    EqLE r (gated_resnet hIm wIm (down_shifted_conv2d hIm wIm) kh kw F Ch eluF sigF Wt x none hc)
           (gated_resnet hIm wIm (down_shifted_conv2d hIm wIm) kh kw F Ch eluF sigF Wt y none hc) := by
  have h1 : EqLE r (grStage1 (down_shifted_conv2d hIm wIm) kh kw F eluF Wt x)
                   (grStage1 (down_shifted_conv2d hIm wIm) kh kw F eluF Wt y) := by
    unfold grStage1
    exact down_shifted_conv2d_eqLE (concat_elu_eqLE hx)
  have h2 : EqLE r
      (grStage2 hIm wIm F eluF Wt (grStage1 (down_shifted_conv2d hIm wIm) kh kw F eluF Wt x) none)
      (grStage2 hIm wIm F eluF Wt (grStage1 (down_shifted_conv2d hIm wIm) kh kw F eluF Wt y) none) := h1
  have h3 : EqLE r
      (grStage3 (down_shifted_conv2d hIm wIm) kh kw F eluF Wt
        (grStage2 hIm wIm F eluF Wt (grStage1 (down_shifted_conv2d hIm wIm) kh kw F eluF Wt x) none))
      (grStage3 (down_shifted_conv2d hIm wIm) kh kw F eluF Wt
        (grStage2 hIm wIm F eluF Wt (grStage1 (down_shifted_conv2d hIm wIm) kh kw F eluF Wt y) none)) := by
    unfold grStage3
    exact down_shifted_conv2d_eqLE (dropmul_eqLE (concat_elu_eqLE h2))
  have h4 : EqLE r
      (grStage4 hIm wIm F Ch Wt
        (grStage3 (down_shifted_conv2d hIm wIm) kh kw F eluF Wt
          (grStage2 hIm wIm F eluF Wt (grStage1 (down_shifted_conv2d hIm wIm) kh kw F eluF Wt x) none)) hc)
      (grStage4 hIm wIm F Ch Wt
        (grStage3 (down_shifted_conv2d hIm wIm) kh kw F eluF Wt
          (grStage2 hIm wIm F eluF Wt (grStage1 (down_shifted_conv2d hIm wIm) kh kw F eluF Wt y) none)) hc) := by
    cases hc with
    | none => exact h3
    | some hv => exact addRight_eqLE h3
  intro a b k hab
  show x a b k + _ * sigF _ = y a b k + _ * sigF _
  rw [hx a b k hab, h4 a b k hab, h4 a b (k + F) hab]

/-- The gated block of the top-left stream (down-right-shifted
convolutions, auxiliary input from the top stream): if the two runs agree
on the rectangle up to (r, c) and the auxiliary streams agree on all rows
up to r, so do the block outputs. -/
lemma gated_resnet_drs_eqRect {hIm wIm kh kw F Ch : ℕ} {eluF sigF : ℚ → ℚ} {Wt : GRW}
    {hc : Option Tensor} {x y t u : Tensor} {r c : ℤ}
    (hx : EqRect r c x y) (ht : EqLE r t u) :
    EqRect r c
      (gated_resnet hIm wIm (down_right_shifted_conv2d hIm wIm) kh kw F Ch eluF sigF Wt x (some t) hc)
      (gated_resnet hIm wIm (down_right_shifted_conv2d hIm wIm) kh kw F Ch eluF sigF Wt y (some u) hc) := by
  have h1 : EqRect r c (grStage1 (down_right_shifted_conv2d hIm wIm) kh kw F eluF Wt x)
                       (grStage1 (down_right_shifted_conv2d hIm wIm) kh kw F eluF Wt y) := by
    unfold grStage1
    exact down_right_shifted_conv2d_eqRect (concat_elu_eqRect hx)
  have h2 : EqRect r c
      (grStage2 hIm wIm F eluF Wt (grStage1 (down_right_shifted_conv2d hIm wIm) kh kw F eluF Wt x) (some t))
      (grStage2 hIm wIm F eluF Wt (grStage1 (down_right_shifted_conv2d hIm wIm) kh kw F eluF Wt y) (some u)) :=
    add2_eqRect h1 (conv2dP_eqRect (by omega) (by omega) (concat_elu_eqRect (eqLE_to_eqRect ht)))
  have h3 : EqRect r c
      (grStage3 (down_right_shifted_conv2d hIm wIm) kh kw F eluF Wt
        (grStage2 hIm wIm F eluF Wt (grStage1 (down_right_shifted_conv2d hIm wIm) kh kw F eluF Wt x) (some t)))
      (grStage3 (down_right_shifted_conv2d hIm wIm) kh kw F eluF Wt
        (grStage2 hIm wIm F eluF Wt (grStage1 (down_right_shifted_conv2d hIm wIm) kh kw F eluF Wt y) (some u))) := by
    unfold grStage3
    exact down_right_shifted_conv2d_eqRect (dropmul_eqRect (concat_elu_eqRect h2))
  have h4 : EqRect r c
      (grStage4 hIm wIm F Ch Wt
        (grStage3 (down_right_shifted_conv2d hIm wIm) kh kw F eluF Wt
          (grStage2 hIm wIm F eluF Wt (grStage1 (down_right_shifted_conv2d hIm wIm) kh kw F eluF Wt x) (some t))) hc)
      (grStage4 hIm wIm F Ch Wt
        (grStage3 (down_right_shifted_conv2d hIm wIm) kh kw F eluF Wt
          (grStage2 hIm wIm F eluF Wt (grStage1 (down_right_shifted_conv2d hIm wIm) kh kw F eluF Wt y) (some u))) hc) := by
    cases hc with
    | none => exact h3
    | some hv => exact addRight_eqRect h3
  intro a b k hab hbc
  show x a b k + _ * sigF _ = y a b k + _ * sigF _
  rw [hx a b k hab hbc, h4 a b k hab hbc, h4 a b (k + F) hab hbc]

lemma imagesEmbedding_congr {F : ℕ} {E : ℕ → ℕ → ℚ} {I J : ℤ → ℤ → ℕ} {a b : ℤ}
    (h : I a b = J a b) :
    ∀ k, imagesEmbedding F E I a b k = imagesEmbedding F E J a b k := by
  intro k
  unfold imagesEmbedding padBorderT embedImage
  rw [h]

/-- The initial top stream (down_shift of a (2, 3) down-shifted
convolution of the embedded padded image) at any position of row a
depends only on grid pixels of rows strictly below a. -/
lemma top0_eqLE {hIm wIm F : ℕ} {E : ℕ → ℕ → ℚ}
    {wT : ℕ → ℕ → ℕ → ℕ → ℚ} {bT : ℕ → ℚ} {I J : ℤ → ℤ → ℕ} {r : ℤ}
    (hI : agreeRowsLT hIm wIm I J r) :
    EqLE r (down_shift hIm wIm (down_shifted_conv2d hIm wIm 2 3 (F + 1) F wT bT (imagesEmbedding F E I)))
           (down_shift hIm wIm (down_shifted_conv2d hIm wIm 2 3 (F + 1) F wT bT (imagesEmbedding F E J))) := by
  intro a b k hab
  unfold down_shift
  split
  case isTrue hg =>
    unfold down_shifted_conv2d
    refine conv2dP_congr (fun i j hi hj hgr kk => imagesEmbedding_congr (hI _ _ hgr ?_) kk) k
    have hi2 : (i : ℤ) ≤ 1 := by exact_mod_cast Nat.lt_succ_iff.mp hi
    omega
  case isFalse => rfl

/-- The initial top-left stream (sum of down_shift of a (1, 3)
down-shifted convolution and right_shift of a (2, 1) down-right-shifted
convolution) at (a, b) depends only on grid pixels strictly before (a, b)
in raster order. -/
lemma tl0_congr {hIm wIm F : ℕ} {E : ℕ → ℕ → ℚ}
    {wA : ℕ → ℕ → ℕ → ℕ → ℚ} {bA : ℕ → ℚ} {wB : ℕ → ℕ → ℕ → ℕ → ℚ} {bB : ℕ → ℚ}
    {I J : ℤ → ℤ → ℕ} {r c : ℤ}
    (hI : agreeRaster hIm wIm I J r c) (a b : ℤ) (k : ℕ) (hab : a ≤ r) (hbc : b ≤ c) :
    down_shift hIm wIm (down_shifted_conv2d hIm wIm 1 3 (F + 1) F wA bA (imagesEmbedding F E I)) a b k
      + right_shift hIm wIm (down_right_shifted_conv2d hIm wIm 2 1 (F + 1) F wB bB (imagesEmbedding F E I)) a b k
    = down_shift hIm wIm (down_shifted_conv2d hIm wIm 1 3 (F + 1) F wA bA (imagesEmbedding F E J)) a b k
      + right_shift hIm wIm (down_right_shifted_conv2d hIm wIm 2 1 (F + 1) F wB bB (imagesEmbedding F E J)) a b k := by
  have p1 : down_shift hIm wIm (down_shifted_conv2d hIm wIm 1 3 (F + 1) F wA bA (imagesEmbedding F E I)) a b k
      = down_shift hIm wIm (down_shifted_conv2d hIm wIm 1 3 (F + 1) F wA bA (imagesEmbedding F E J)) a b k := by
    unfold down_shift
    split
    case isTrue hg =>
      unfold down_shifted_conv2d
      refine conv2dP_congr (fun i j hi hj hgr kk => imagesEmbedding_congr (hI _ _ hgr ?_) kk) k
      have hi2 : (i : ℤ) ≤ 0 := by exact_mod_cast Nat.lt_succ_iff.mp hi
      omega
    case isFalse => rfl
  have p2 : right_shift hIm wIm (down_right_shifted_conv2d hIm wIm 2 1 (F + 1) F wB bB (imagesEmbedding F E I)) a b k
      = right_shift hIm wIm (down_right_shifted_conv2d hIm wIm 2 1 (F + 1) F wB bB (imagesEmbedding F E J)) a b k := by
    unfold right_shift
    split
    case isTrue hg =>
      unfold down_right_shifted_conv2d
      refine conv2dP_congr (fun i j hi hj hgr kk => imagesEmbedding_congr (hI _ _ hgr ?_) kk) k
      have hi2 : (i : ℤ) ≤ 1 := by exact_mod_cast Nat.lt_succ_iff.mp hi
      have hj2 : (j : ℤ) ≤ 0 := by exact_mod_cast Nat.lt_succ_iff.mp hj
      omega
    case isFalse => rfl
  rw [p1, p2]

/-- Both stream invariants, propagated through the whole pipeline by
induction over the number of gated layers. -/
lemma pixelStreams_causal_aux (hIm wIm F Ch : ℕ) (eluF sigF : ℚ → ℚ) (Wt : PCW)
    (hc : Option Tensor) (I J : ℤ → ℤ → ℕ) :
    ∀ n : ℕ,
      (∀ r : ℤ, agreeRowsLT hIm wIm I J r →
        EqLE r (pixelStreams hIm wIm F Ch eluF sigF Wt hc I n).1
               (pixelStreams hIm wIm F Ch eluF sigF Wt hc J n).1) ∧
      (∀ r c : ℤ, agreeRaster hIm wIm I J r c →
        EqRect r c (pixelStreams hIm wIm F Ch eluF sigF Wt hc I n).2
                   (pixelStreams hIm wIm F Ch eluF sigF Wt hc J n).2)
  | 0 =>
    ⟨fun _ hI => top0_eqLE hI,
     fun _ _ hI a b k hab hbc => tl0_congr hI a b k hab hbc⟩
  | n + 1 =>
    ⟨fun r hI =>
       gated_resnet_ds_eqLE ((pixelStreams_causal_aux hIm wIm F Ch eluF sigF Wt hc I J n).1 r hI),
     fun r c hI =>
       gated_resnet_drs_eqRect
         ((pixelStreams_causal_aux hIm wIm F Ch eluF sigF Wt hc I J n).2 r c hI)
         (gated_resnet_ds_eqLE
           ((pixelStreams_causal_aux hIm wIm F Ch eluF sigF Wt hc I J n).1 r (agreeRaster_rowsLT hI)))⟩

/-- C1.  Causality of the two streams of the composed network built in
PixelCNN and ConditionalPixelCNN (the optional conditioning tensor hc
covers both variants, and is identical in the two runs since only the
image changes): for every pair of input images, every layer count, every
choice of weights and activations and every output position (r, c), if
the images agree at all grid positions with row strictly less than r then
the down-shifted (top) stream values at (r, c) coincide, in other words
the top stream is invariant to any change of the input at positions with
row at least r; and if the images agree at all grid positions strictly
before (r, c) in raster order then the down-right-shifted (top-left)
stream values at (r, c) coincide, in other words the top-left stream is
invariant to any change at positions with row greater than r, or row
equal to r and column at least c. -/
theorem pixelcnn_stream_causality (hIm wIm F Ch : ℕ) (eluF sigF : ℚ → ℚ) (Wt : PCW)
    (hc : Option Tensor) (I J : ℤ → ℤ → ℕ) (n : ℕ) (r c : ℤ) :
    (agreeRowsLT hIm wIm I J r →
      ∀ k, (pixelStreams hIm wIm F Ch eluF sigF Wt hc I n).1 r c k
         = (pixelStreams hIm wIm F Ch eluF sigF Wt hc J n).1 r c k) ∧
    (agreeRaster hIm wIm I J r c →
      ∀ k, (pixelStreams hIm wIm F Ch eluF sigF Wt hc I n).2 r c k
         = (pixelStreams hIm wIm F Ch eluF sigF Wt hc J n).2 r c k) :=
  ⟨fun hI k => (pixelStreams_causal_aux hIm wIm F Ch eluF sigF Wt hc I J n).1 r hI r c k le_rfl,
   fun hI k => (pixelStreams_causal_aux hIm wIm F Ch eluF sigF Wt hc I J n).2 r c hI r c k le_rfl le_rfl⟩

/-- All-zero parameters of one gated block, used to instantiate the
causality theorem at a concrete input. -/
def grwZero : GRW :=
  ⟨fun _ _ _ _ => 0, fun _ => 0, fun _ _ _ _ => 0, fun _ => 0,
   fun _ _ _ => 1, fun _ _ _ _ => 0, fun _ => 0, fun _ _ _ _ => 0, fun _ => 0⟩

/-- All-one convolution weights for the pipeline, used to instantiate the
causality theorem at a concrete input. -/
def pcwOne : PCW :=
  ⟨fun _ _ => 1, fun _ _ _ _ => 1, fun _ => 0, fun _ _ _ _ => 1, fun _ => 0,
   fun _ _ _ _ => 1, fun _ => 0, fun _ => grwZero, fun _ => grwZero⟩

/-- A concrete image pair for the causality witness: the two images agree
everywhere except on row 1, which is at or below the observed row 0. -/
def imgA : ℤ → ℤ → ℕ := fun _ _ => 0

/-- Second image of the witness pair, differing from the first on row 1. -/
def imgB : ℤ → ℤ → ℕ := fun a _ => if a = 1 then 5 else 0

theorem pixelcnn_stream_causality_witness :
    (pixelStreams 2 2 1 1 (fun q => q) (fun q => q) pcwOne none imgA 1).1 0 0 0
      = (pixelStreams 2 2 1 1 (fun q => q) (fun q => q) pcwOne none imgB 1).1 0 0 0 ∧
    (pixelStreams 2 2 1 1 (fun q => q) (fun q => q) pcwOne none imgA 1).2 0 0 0
      = (pixelStreams 2 2 1 1 (fun q => q) (fun q => q) pcwOne none imgB 1).2 0 0 0 :=
  ⟨(pixelcnn_stream_causality 2 2 1 1 (fun q => q) (fun q => q) pcwOne none imgA imgB 1 0 0).1
      (fun a _ hg hlt => absurd hlt (not_lt.mpr hg.1)) 0,
   (pixelcnn_stream_causality 2 2 1 1 (fun q => q) (fun q => q) pcwOne none imgA imgB 1 0 0).2
      (fun a b hg hd => by
        rcases hd with hlt | heq
        · exact absurd hlt (not_lt.mpr hg.1)
        · exact absurd heq.2 (not_lt.mpr hg.2.2.1)) 0⟩

/-!  Arithmetic of the training driver, src/scripts/train.py.  -/

/-- Lines 36 and 37 of src/scripts/train.py: each channel intensity is
cast to float32, divided by 25.6 and cast back to int32.  The cast
truncates toward zero, and the quotient of a nonnegative value is
nonnegative, so the result is the floor of the exact quotient; the float32
arithmetic is modelled as exact rational arithmetic (25.6 is 128 / 5). -/
def quantizeChannel (v : ℕ) : ℤ := Int.floor ((v : ℚ) / (128 / 5))

/-- Lines 39 to 41 of src/scripts/train.py: the composite per-pixel label
packs the three quantized channels as channel0 + channel1 * 10 +
channel2 * 100. -/
def packTarget (r g b : ℕ) : ℤ :=
  quantizeChannel r + quantizeChannel g * 10 + quantizeChannel b * 100

lemma quantizeChannel_nonneg (v : ℕ) : 0 ≤ quantizeChannel v := by
  unfold quantizeChannel
  exact Int.floor_nonneg.mpr (by positivity)

lemma quantizeChannel_le_nine {v : ℕ} (h : v ≤ 255) : quantizeChannel v ≤ 9 := by
  unfold quantizeChannel
  have hv : ((v : ℚ) / (128 / 5)) < 10 := by
    rw [div_lt_iff₀ (by norm_num)]
    have hvq : (v : ℚ) ≤ 255 := by exact_mod_cast h
    linarith
  have hfl : Int.floor ((v : ℚ) / (128 / 5)) < (10 : ℤ) :=
    Int.floor_lt.mpr (by exact_mod_cast hv)
  omega

lemma packTarget_bounds_aux {r g b : ℕ} (hr : r ≤ 255) (hg : g ≤ 255) (hb : b ≤ 255) :
    0 ≤ packTarget r g b ∧ packTarget r g b ≤ 999 := by
  unfold packTarget
  have h1 := quantizeChannel_nonneg r
  have h2 := quantizeChannel_nonneg g
  have h3 := quantizeChannel_nonneg b
  have h4 := quantizeChannel_le_nine hr
  have h5 := quantizeChannel_le_nine hg
  have h6 := quantizeChannel_le_nine hb
  constructor <;> nlinarith

/-- C3.  For every three-channel pixel with channel intensities in
[0, 255], the discrete target computed by the training driver (each
channel divided by 25.6 and truncated, then packed base 10 as
R + 10 * G + 100 * B) lies in [0, 999], a valid class index for
output_size equal to 1000. -/
theorem train_targets_in_range (r g b : ℕ)
    (hr : r ≤ 255) (hg : g ≤ 255) (hb : b ≤ 255) :
    0 ≤ packTarget r g b ∧ packTarget r g b ≤ 999 :=
  packTarget_bounds_aux hr hg hb

theorem train_targets_in_range_witness :
    0 ≤ packTarget 255 255 255 ∧ packTarget 255 255 255 ≤ 999 :=
  train_targets_in_range 255 255 255 (by decide) (by decide) (by decide)

/-- The keras Embedding(output_size, filters) layer of
src/pixelcnn/pixelcnn.py lines 62 and 63 (and 214 and 215) is a lookup
table with exactly output_size rows, the same cardinality as the logits
output. -/
def embeddingRows (output_size : ℕ) : ℕ := output_size

/-- Range-checked embedding lookup: the gather of a row of the table
succeeds exactly when the index names one of its output_size rows,
otherwise the runtime raises (modelled as none). -/
def embedSafeLookup (output_size filters : ℕ) (E : ℕ → ℕ → ℚ) (v : ℕ) :
    Option (ℕ → ℚ) :=
  if v < embeddingRows output_size then
    some (fun k => if k < filters then E v k else 0)
  else none

/-- C9.  A pixel value is a valid embedding index exactly when it lies in
[0, output_size), because the table has exactly output_size rows; and the
targets computed by the training driver are valid indices for
output_size equal to 1000. -/
theorem embedding_index_safety (output_size filters : ℕ) (E : ℕ → ℕ → ℚ) :
    (∀ v, (embedSafeLookup output_size filters E v).isSome ↔ v < output_size) ∧
    (∀ r g b : ℕ, r ≤ 255 → g ≤ 255 → b ≤ 255 →
      0 ≤ packTarget r g b ∧ packTarget r g b < (embeddingRows 1000 : ℤ)) := by
  constructor
  · intro v
    unfold embedSafeLookup embeddingRows
    split
    case isTrue hv => simpa using hv
    case isFalse hv => simpa using hv
  · intro r g b hr hg hb
    have := packTarget_bounds_aux hr hg hb
    unfold embeddingRows
    constructor
    · exact this.1
    · have h2 := this.2
      norm_num
      omega

theorem embedding_index_safety_witness :
    ((embedSafeLookup 1000 4 (fun _ _ => 0) 999).isSome ↔ 999 < 1000) ∧
    (0 ≤ packTarget 255 0 0 ∧ packTarget 255 0 0 < (embeddingRows 1000 : ℤ)) :=
  ⟨(embedding_index_safety 1000 4 (fun _ _ => 0)).1 999,
   (embedding_index_safety 1000 4 (fun _ _ => 0)).2 255 0 0 (by decide) (by decide) (by decide)⟩

/-!  Shape calculus: the spatial size and channel count of every tensor of
the pipeline, following the padding and stride conventions of the layers
used by the source.  The batch dimension is untouched by every layer and
is omitted.  -/

/-- Spatial height and width and channel count of a feature map. -/
structure Shape where
  height : ℕ
  width : ℕ
  channels : ℕ
deriving DecidableEq

/-- Keras valid-padding convolution output size at stride 1. -/
def convValidOut (n k : ℕ) : ℕ := n - k + 1

/-- Modelled from the spec (pixelcnn/ops.py is not under src/), spec 4.1:
the down-shifted convolution pads kh - 1 rows on top and (kw - 1) / 2
columns on each side before a valid convolution with filters output
channels. -/
def down_shifted_conv2d_shape (filters kh kw : ℕ) (s : Shape) : Shape :=
  ⟨convValidOut (s.height + (kh - 1)) kh,
   convValidOut (s.width + 2 * ((kw - 1) / 2)) kw, filters⟩

/-- Modelled from the spec, spec 4.1: the down-right-shifted convolution
pads kh - 1 rows on top and kw - 1 columns on the left. -/
def down_right_shifted_conv2d_shape (filters kh kw : ℕ) (s : Shape) : Shape :=
  ⟨convValidOut (s.height + (kh - 1)) kh,
   convValidOut (s.width + (kw - 1)) kw, filters⟩

/-- Modelled from the spec, spec 4.1: the shifts insert a zero row or
column and drop the opposite edge, preserving the shape. -/
def down_shift_shape (s : Shape) : Shape := s

/-- Modelled from the spec, spec 4.1: shape preserved. -/
def right_shift_shape (s : Shape) : Shape := s

/-- Spec 4.2: the concatenated ELU doubles the channel count and keeps
the spatial size. -/
def concat_elu_shape (s : Shape) : Shape := ⟨s.height, s.width, 2 * s.channels⟩

/-- Modelled from the spec (pixelcnn/gated_resnet.py is not under src/),
spec 4.3 step 6 and spec section 8: the gated residual block adds its
gated result to its input, so its output shape equals its input shape. -/
def gated_resnet_shape (s : Shape) : Shape := s

/-- The embedding lookup of a (height, width) discrete image produces a
(height, width, filters) feature map. -/
def embedding_shape (filters h w : ℕ) : Shape := ⟨h, w, filters⟩

/-- The padding_backend Lambda appends one channel. -/
def padBorder_shape (s : Shape) : Shape := ⟨s.height, s.width, s.channels + 1⟩

/-- Keras Conv2D with valid padding and strides (1, 1). -/
def conv2d_valid_shape (filters kh kw : ℕ) (s : Shape) : Shape :=
  ⟨convValidOut s.height kh, convValidOut s.width kw, filters⟩

/-- Keras Conv2DTranspose with same padding: the output spatial size is
the input size times the stride. -/
def conv2dTranspose_same_shape (filters sh sw : ℕ) (s : Shape) : Shape :=
  ⟨s.height * sh, s.width * sw, filters⟩

/-- Shape evolution of the two streams through the main loop of
src/pixelcnn/pixelcnn.py lines 89 to 106: each iteration passes each
stream through one gated residual block. -/
def pixelLoopShape : ℕ → Shape × Shape → Shape × Shape
  | 0, st => st
  | n + 1, st => pixelLoopShape n (gated_resnet_shape st.1, gated_resnet_shape st.2)

lemma pixelLoopShape_id : ∀ (n : ℕ) (st : Shape × Shape), pixelLoopShape n st = st
  | 0, _ => rfl
  | n + 1, st => pixelLoopShape_id n st

/-- Shape of the logits of PixelCNN, following src/pixelcnn/pixelcnn.py
lines 46 to 121 layer by layer: input (embedded to filters channels when
discrete), border padding, the initial shifted convolutions, num_layers
gated blocks per stream, the final concatenated ELU and the final 1 by 1
valid convolution with output_size filters.  The image path of
ConditionalPixelCNN (lines 203 to 275) is the identical sequence of
layers. -/
def pixelCNNShape (output_size image_height image_width : ℕ)
    (image_is_discrete : Bool) (num_layers filters : ℕ) : Shape :=
  let s0 : Shape :=
    if image_is_discrete then embedding_shape filters image_height image_width
    else ⟨image_height, image_width, filters⟩
  let sPad := padBorder_shape s0
  let sTop := down_shift_shape (down_shifted_conv2d_shape filters 2 3 sPad)
  let sTL := down_shift_shape (down_shifted_conv2d_shape filters 1 3 sPad)
  let st := pixelLoopShape num_layers (sTop, sTL)
  conv2d_valid_shape output_size 1 1 (concat_elu_shape st.2)

/-- C4.  For every valid input, the logits tensor of PixelCNN and of
ConditionalPixelCNN has the spatial size of the image and output_size
channels: the final 1 by 1 valid convolution has output_size filters and
preserves the spatial dimensions.  The second conjunct checks that the
two summands forming the initial top-left stream (whose shapes must agree
for the add layer) both have the image shape as well. -/
theorem pixelcnn_output_shape (output_size image_height image_width : ℕ)
    (d : Bool) (num_layers filters : ℕ)
    (hh : 1 ≤ image_height) (hw : 1 ≤ image_width) :
    pixelCNNShape output_size image_height image_width d num_layers filters
      = ⟨image_height, image_width, output_size⟩ ∧
    down_shift_shape (down_shifted_conv2d_shape filters 1 3
        (padBorder_shape (embedding_shape filters image_height image_width)))
      = right_shift_shape (down_right_shifted_conv2d_shape filters 2 1
        (padBorder_shape (embedding_shape filters image_height image_width))) := by
  constructor
  · simp only [pixelCNNShape]
    rw [pixelLoopShape_id]
    cases d <;>
      simp only [down_shift_shape, down_shifted_conv2d_shape, padBorder_shape,
        embedding_shape, conv2d_valid_shape, concat_elu_shape, convValidOut,
        Bool.false_eq_true, if_true, if_false, Shape.mk.injEq, and_true] <;>
      omega
  · simp only [down_shift_shape, right_shift_shape, down_shifted_conv2d_shape,
      down_right_shifted_conv2d_shape, padBorder_shape, embedding_shape,
      convValidOut, Shape.mk.injEq, and_true]
    omega

theorem pixelcnn_output_shape_witness :
    pixelCNNShape 1000 32 32 true 6 256 = ⟨32, 32, 1000⟩ ∧
    down_shift_shape (down_shifted_conv2d_shape 256 1 3
        (padBorder_shape (embedding_shape 256 32 32)))
      = right_shift_shape (down_right_shifted_conv2d_shape 256 2 1
        (padBorder_shape (embedding_shape 256 32 32))) :=
  pixelcnn_output_shape 1000 32 32 true 6 256 (by decide) (by decide)

/-- C7.  The discrete image is mapped through a lookup-table embedding of
width filters, then exactly one extra channel holding the constant 1 is
appended on the right of the channel axis: channel F of the padded
embedding is 1 everywhere, channels below F carry the embedding
unchanged, channels beyond F are absent (zero in this total model), and
the tensor entering the initial causal convolutions has filters + 1
channels. -/
theorem embedding_padding_border (F : ℕ) (E : ℕ → ℕ → ℚ) (I : ℤ → ℤ → ℕ)
    (r c : ℤ) (hgt wd : ℕ) :
    imagesEmbedding F E I r c F = 1 ∧
    (∀ k, k < F → imagesEmbedding F E I r c k = E (I r c) k) ∧
    (∀ k, F < k → imagesEmbedding F E I r c k = 0) ∧
    padBorder_shape (embedding_shape F hgt wd) = ⟨hgt, wd, F + 1⟩ := by
  refine ⟨?_, ?_, ?_, rfl⟩
  · unfold imagesEmbedding padBorderT
    simp
  · intro k hk
    unfold imagesEmbedding padBorderT embedImage
    simp [hk]
  · intro k hk
    unfold imagesEmbedding padBorderT
    rw [if_neg (by omega), if_neg (by omega)]

theorem embedding_padding_border_witness :
    imagesEmbedding 2 (fun _ _ => (7 : ℚ)) (fun _ _ => 3) 0 0 2 = 1 ∧
    imagesEmbedding 2 (fun _ _ => (7 : ℚ)) (fun _ _ => 3) 0 0 1 = 7 ∧
    imagesEmbedding 2 (fun _ _ => (7 : ℚ)) (fun _ _ => 3) 0 0 5 = 0 :=
  ⟨(embedding_padding_border 2 (fun _ _ => (7 : ℚ)) (fun _ _ => 3) 0 0 1 1).1,
   (embedding_padding_border 2 (fun _ _ => (7 : ℚ)) (fun _ _ => 3) 0 0 1 1).2.1 1 (by decide),
   (embedding_padding_border 2 (fun _ _ => (7 : ℚ)) (fun _ _ => 3) 0 0 1 1).2.2.1 5 (by decide)⟩

/-!  Structural embedding of the Keras layer graph.  A graph is a list of
nodes; the identifier of a node is its position in the list; each node
records its layer kind and the identifiers of its inputs.  The gated
residual block is a single node recording its auxiliary input a and its
conditioning input h, mirroring the keyword arguments of the source.  -/

/-- The layer kinds used by src/pixelcnn/pixelcnn.py. -/
inductive GOp where
  | inputL (shape : List ℕ)
  | embeddingL (rows dim : ℕ)
  | padBorderL
  | dsConvL (filters kh kw : ℕ)
  | drsConvL (filters kh kw : ℕ)
  | downShiftL
  | rightShiftL
  | addL
  | concatEluL
  | gatedL (isDS : Bool) (kh kw : ℕ) (aArg : Option ℕ) (hArg : Option ℕ) (dropout : ℚ)
  | conv2dL (filters kh kw sh sw : ℕ)
  | convTransposeL (filters kh kw sh sw : ℕ)
deriving DecidableEq

/-- One node of the layer graph: its kind and its primary inputs. -/
structure GNode where
  op : GOp
  inputs : List ℕ
deriving DecidableEq

/-- The layer graph under construction. -/
abbrev Graph := List GNode

/-- Appending a layer to the graph yields its identifier. -/
def addNode (g : Graph) (n : GNode) : Graph × ℕ := (g ++ [n], g.length)

/-- The main loop of src/pixelcnn/pixelcnn.py lines 89 to 106 (and
identically lines 241 to 260): in each of the n iterations, first the top
stream is replaced by a gated block with the down-shifted convolution and
kernel (2, 3), no auxiliary input and the optional conditioning hArg;
then the top-left stream is replaced by a gated block with the
down-right-shifted convolution and kernel (2, 2), whose auxiliary input
is the gated top node created in the same iteration. -/
def pixelLoopG (dr : ℚ) (hArg : Option ℕ) : ℕ → Graph → ℕ → ℕ → Graph × ℕ × ℕ
  | 0, g, top, tl => (g, top, tl)
  | n + 1, g, top, tl =>
    let p1 := addNode g ⟨.gatedL true 2 3 none hArg dr, [top]⟩
    let p2 := addNode p1.1 ⟨.gatedL false 2 2 (some p1.2) hArg dr, [tl]⟩
    pixelLoopG dr hArg n p2.1 p1.2 p2.2

/-- The nodes appended by the main loop, as a function of the position
base at which they start and the incoming stream identifiers. -/
def loopNodesG (dr : ℚ) (hArg : Option ℕ) : ℕ → ℕ → ℕ → ℕ → List GNode
  | 0, _, _, _ => []
  | n + 1, base, top, tl =>
    ⟨.gatedL true 2 3 none hArg dr, [top]⟩ ::
    ⟨.gatedL false 2 2 (some base) hArg dr, [tl]⟩ ::
    loopNodesG dr hArg n (base + 2) base (base + 1)

/-- The stream identifiers left by the main loop. -/
def loopEndsG : ℕ → ℕ → ℕ → ℕ → ℕ × ℕ
  | 0, _, top, tl => (top, tl)
  | n + 1, base, _, _ => loopEndsG n (base + 2) base (base + 1)

lemma loopNodesG_length (dr : ℚ) (hArg : Option ℕ) :
    ∀ (n base top tl : ℕ), (loopNodesG dr hArg n base top tl).length = 2 * n
  | 0, _, _, _ => rfl
  | n + 1, base, top, tl => by
    simp only [loopNodesG, List.length_cons, loopNodesG_length dr hArg n]
    omega

lemma pixelLoopG_eq (dr : ℚ) (hArg : Option ℕ) :
    ∀ (n : ℕ) (g : Graph) (top tl : ℕ),
      pixelLoopG dr hArg n g top tl
        = (g ++ loopNodesG dr hArg n g.length top tl, loopEndsG n g.length top tl)
  | 0, g, top, tl => by
    simp [pixelLoopG, loopNodesG, loopEndsG]
  | n + 1, g, top, tl => by
    have ih := pixelLoopG_eq dr hArg n
      (g ++ [⟨.gatedL true 2 3 none hArg dr, [top]⟩]
         ++ [⟨.gatedL false 2 2 (some g.length) hArg dr, [tl]⟩])
      g.length (g.length + 1)
    simp only [pixelLoopG, addNode, List.length_append, List.length_cons,
      List.length_nil] at ih ⊢
    rw [ih]
    simp only [loopNodesG, loopEndsG, List.append_assoc, List.cons_append,
      List.nil_append]

/-- A node is a gated residual block. -/
def isGatedB (nd : GNode) : Bool :=
  match nd.op with
  | .gatedL _ _ _ _ _ _ => true
  | _ => false

/-- The conditioning argument h of a gated residual block node. -/
def gatedHOf (nd : GNode) : Option ℕ :=
  match nd.op with
  | .gatedL _ _ _ _ ha _ => ha
  | _ => none

/-- A node is a transposed convolution. -/
def isConvTB (nd : GNode) : Bool :=
  match nd.op with
  | .convTransposeL _ _ _ _ _ => true
  | _ => false

/-- A node is a concatenated ELU. -/
def isEluB (nd : GNode) : Bool :=
  match nd.op with
  | .concatEluL => true
  | _ => false

lemma loopNodesG_gated (dr : ℚ) (hArg : Option ℕ) :
    ∀ (n base top tl : ℕ) (nd : GNode), nd ∈ loopNodesG dr hArg n base top tl →
      isGatedB nd = true ∧ gatedHOf nd = hArg
  | 0, _, _, _, nd => by simp [loopNodesG]
  | n + 1, base, top, tl, nd => by
    intro hm
    simp only [loopNodesG, List.mem_cons] at hm
    rcases hm with rfl | rfl | hmt
    · exact ⟨rfl, rfl⟩
    · exact ⟨rfl, rfl⟩
    · exact loopNodesG_gated dr hArg n (base + 2) base (base + 1) nd hmt

lemma loopNodesG_countGated (dr : ℚ) (hArg : Option ℕ) (n base top tl : ℕ) :
    List.countP isGatedB (loopNodesG dr hArg n base top tl) = 2 * n := by
  rw [← loopNodesG_length dr hArg n base top tl]
  exact List.countP_eq_length.mpr
    (fun nd hnd => (loopNodesG_gated dr hArg n base top tl nd hnd).1)

lemma loopNodesG_getElem (dr : ℚ) (hArg : Option ℕ) :
    ∀ (n base top tl j : ℕ), j < n →
      (loopNodesG dr hArg n base top tl)[2 * j]? =
        some ⟨.gatedL true 2 3 none hArg dr, [if j = 0 then top else base + 2 * (j - 1)]⟩ ∧
      (loopNodesG dr hArg n base top tl)[2 * j + 1]? =
        some ⟨.gatedL false 2 2 (some (base + 2 * j)) hArg dr,
              [if j = 0 then tl else base + 2 * j - 1]⟩
  | 0, _, _, _, j => by omega
  | n + 1, base, top, tl, 0 => by
    intro _
    simp [loopNodesG]
  | n + 1, base, top, tl, j + 1 => by
    intro hj
    have ih := loopNodesG_getElem dr hArg n (base + 2) base (base + 1) j (by omega)
    have e1 : 2 * (j + 1) = 2 * j + 1 + 1 := by ring
    have e2 : base + 2 * (j + 1 - 1) = base + 2 * j := by omega
    have e3 : base + 2 * (j + 1) = base + 2 + 2 * j := by ring
    have e4 : base + 2 * (j + 1) - 1 = base + 2 + 2 * j - 1 := by omega
    have hval1 : (if j = 0 then base else base + 2 + 2 * (j - 1)) = base + 2 * j := by
      rcases j with _ | m
      · simp
      · rw [if_neg (Nat.succ_ne_zero m)]
        omega
    have hval2 : (if j = 0 then base + 1 else base + 2 + 2 * j - 1) = base + 2 + 2 * j - 1 := by
      rcases j with _ | m
      · simp
      · rfl
    constructor
    · rw [e1, e2, if_neg (Nat.succ_ne_zero j)]
      simp only [loopNodesG, List.getElem?_cons_succ]
      rw [ih.1, hval1]
    · rw [e4, e3, e1, if_neg (Nat.succ_ne_zero j)]
      simp only [loopNodesG, List.getElem?_cons_succ]
      rw [ih.2, hval2]

/-- One iteration of the conditional upsampling loop of
src/pixelcnn/pixelcnn.py lines 192 to 201: when the iteration index is
positive, first apply concat_elu; then a Conv2DTranspose with filters
output channels, kernel (5, 5), strides (2, 2) and same padding. -/
def condStepG (F : ℕ) (st : Graph × ℕ) (i : ℕ) : Graph × ℕ :=
  let p := if 0 < i then addNode st.1 ⟨.concatEluL, [st.2]⟩ else st
  addNode p.1 ⟨.convTransposeL F 5 5 2 2, [p.2]⟩

/-- The conditional upsampling loop, a fold of the step over the
iteration indices 0 to num_preprocess_layers - 1. -/
def condChainG (F n : ℕ) (g : Graph) (cur : ℕ) : Graph × ℕ :=
  (List.range n).foldl (condStepG F) (g, cur)

/-- The nodes appended by the positive-index iterations of the
conditional upsampling loop: alternating concat_elu and transposed
convolution pairs. -/
def condSegG (F : ℕ) : ℕ → ℕ → ℕ → List GNode
  | _, _, 0 => []
  | prev, idx, m + 1 =>
    ⟨.concatEluL, [prev]⟩ :: ⟨.convTransposeL F 5 5 2 2, [idx]⟩ ::
      condSegG F (idx + 1) (idx + 2) m

/-- The identifier of the last node of the positive-index iterations. -/
def condSegEnd (prev idx m : ℕ) : ℕ := if m = 0 then prev else idx + 2 * m - 1

/-- All nodes appended by the conditional upsampling loop. -/
def condChainNodes (F cur idx : ℕ) : ℕ → List GNode
  | 0 => []
  | m + 1 => ⟨.convTransposeL F 5 5 2 2, [cur]⟩ :: condSegG F idx (idx + 1) m

/-- The identifier of the final upsampled conditioning node. -/
def condChainEnd (cur idx : ℕ) : ℕ → ℕ
  | 0 => cur
  | m + 1 => condSegEnd idx (idx + 1) m

/-- The number of nodes appended by the conditional upsampling loop. -/
def condChainLen : ℕ → ℕ
  | 0 => 0
  | n + 1 => 2 * n + 1

lemma condFoldl_pos (F : ℕ) :
    ∀ (l : List ℕ), (∀ i ∈ l, 0 < i) → ∀ (g : Graph) (cur : ℕ),
      l.foldl (condStepG F) (g, cur)
        = (g ++ condSegG F cur g.length l.length, condSegEnd cur g.length l.length)
  | [], _, g, cur => by simp [condSegG, condSegEnd]
  | i :: l, hl, g, cur => by
    have hi : 0 < i := hl i (List.mem_cons_self i l)
    have ih := condFoldl_pos F l (fun x hx => hl x (List.mem_cons_of_mem i hx))
      (g ++ [⟨.concatEluL, [cur]⟩] ++ [⟨.convTransposeL F 5 5 2 2, [g.length]⟩])
      (g.length + 1)
    simp only [List.foldl_cons, condStepG, addNode, if_pos hi, List.length_append,
      List.length_cons, List.length_nil] at ih ⊢
    rw [ih]
    simp only [condSegG, condSegEnd, List.append_assoc, List.cons_append,
      List.nil_append, List.length_cons]
    have e5 : List.length g + (0 + 1) + (0 + 1) = List.length g + 2 := by omega
    rw [e5, if_neg (Nat.succ_ne_zero l.length)]
    simp only [Prod.mk.injEq]
    refine ⟨trivial, ?_⟩
    split
    case isTrue hz => omega
    case isFalse hz => omega

lemma condChainG_eq (F : ℕ) :
    ∀ (n : ℕ) (g : Graph) (cur : ℕ),
      condChainG F n g cur
        = (g ++ condChainNodes F cur g.length n, condChainEnd cur g.length n) := by
  intro n g cur
  cases n with
  | zero => simp [condChainG, condChainNodes, condChainEnd]
  | succ m =>
    unfold condChainG
    rw [List.range_succ_eq_map]
    have h0 : condStepG F (g, cur) 0 = (g ++ [⟨.convTransposeL F 5 5 2 2, [cur]⟩], g.length) := by
      simp [condStepG, addNode]
    rw [List.foldl_cons, h0]
    have hpos : ∀ i ∈ (List.range m).map Nat.succ, 0 < i := by
      intro i hi
      rcases List.mem_map.mp hi with ⟨x, _, rfl⟩
      exact Nat.succ_pos x
    have hfold := condFoldl_pos F ((List.range m).map Nat.succ) hpos
      (g ++ [(⟨GOp.convTransposeL F 5 5 2 2, [cur]⟩ : GNode)]) (List.length g)
    rw [hfold]
    simp only [List.length_map, List.length_range, List.length_append,
      List.length_cons, List.length_nil, condChainNodes, condChainEnd,
      List.append_assoc, List.cons_append, List.nil_append]

lemma condSegG_length (F : ℕ) :
    ∀ (prev idx m : ℕ), (condSegG F prev idx m).length = 2 * m
  | _, _, 0 => rfl
  | prev, idx, m + 1 => by
    simp only [condSegG, List.length_cons, condSegG_length F (idx + 1) (idx + 2) m]
    omega

lemma condChainNodes_length (F cur idx n : ℕ) :
    (condChainNodes F cur idx n).length = condChainLen n := by
  cases n with
  | zero => rfl
  | succ m =>
    simp only [condChainNodes, condChainLen, List.length_cons, condSegG_length]

lemma condSegG_kinds (F : ℕ) :
    ∀ (prev idx m : ℕ) (nd : GNode), nd ∈ condSegG F prev idx m →
      isGatedB nd = false ∧ (isEluB nd = true ∨ isConvTB nd = true)
  | _, _, 0, nd => by simp [condSegG]
  | prev, idx, m + 1, nd => by
    intro hm
    simp only [condSegG, List.mem_cons] at hm
    rcases hm with rfl | rfl | hmt
    · exact ⟨rfl, Or.inl rfl⟩
    · exact ⟨rfl, Or.inr rfl⟩
    · exact condSegG_kinds F (idx + 1) (idx + 2) m nd hmt

lemma condChainNodes_kinds (F cur idx n : ℕ) (nd : GNode)
    (hm : nd ∈ condChainNodes F cur idx n) :
    isGatedB nd = false ∧ (isEluB nd = true ∨ isConvTB nd = true) := by
  cases n with
  | zero => simp [condChainNodes] at hm
  | succ m =>
    simp only [condChainNodes, List.mem_cons] at hm
    rcases hm with rfl | hmt
    · exact ⟨rfl, Or.inr rfl⟩
    · exact condSegG_kinds F idx (idx + 1) m nd hmt

lemma condSegG_countConvT (F : ℕ) :
    ∀ (prev idx m : ℕ), List.countP isConvTB (condSegG F prev idx m) = m
  | _, _, 0 => rfl
  | prev, idx, m + 1 => by
    simp only [condSegG, List.countP_cons]
    rw [condSegG_countConvT F (idx + 1) (idx + 2) m]
    simp [isConvTB, isEluB]

lemma condSegG_countElu (F : ℕ) :
    ∀ (prev idx m : ℕ), List.countP isEluB (condSegG F prev idx m) = m
  | _, _, 0 => rfl
  | prev, idx, m + 1 => by
    simp only [condSegG, List.countP_cons]
    rw [condSegG_countElu F (idx + 1) (idx + 2) m]
    simp [isConvTB, isEluB]

lemma condChainNodes_countConvT (F cur idx n : ℕ) :
    List.countP isConvTB (condChainNodes F cur idx n) = n := by
  cases n with
  | zero => rfl
  | succ m =>
    simp only [condChainNodes, List.countP_cons]
    rw [condSegG_countConvT F idx (idx + 1) m]
    simp [isConvTB]

lemma condChainNodes_countElu (F cur idx n : ℕ) :
    List.countP isEluB (condChainNodes F cur idx n) = n - 1 := by
  cases n with
  | zero => rfl
  | succ m =>
    simp only [condChainNodes, List.countP_cons]
    rw [condSegG_countElu F idx (idx + 1) m]
    simp [isEluB]

lemma condSegG_getElem (F : ℕ) :
    ∀ (m prev idx j : ℕ), j < m →
      (condSegG F prev idx m)[2 * j]? =
        some ⟨.concatEluL, [if j = 0 then prev else idx + 2 * (j - 1) + 1]⟩ ∧
      (condSegG F prev idx m)[2 * j + 1]? =
        some ⟨.convTransposeL F 5 5 2 2, [idx + 2 * j]⟩
  | 0, _, _, j => by omega
  | m + 1, prev, idx, 0 => by
    intro _
    simp [condSegG]
  | m + 1, prev, idx, j + 1 => by
    intro hj
    have ih := condSegG_getElem F m (idx + 1) (idx + 2) j (by omega)
    have e1 : 2 * (j + 1) = 2 * j + 1 + 1 := by ring
    have e2 : idx + 2 * (j + 1 - 1) + 1 = idx + 2 * j + 1 := by omega
    have e3 : idx + 2 * (j + 1) = idx + 2 + 2 * j := by ring
    have hval1 : (if j = 0 then idx + 1 else idx + 2 + 2 * (j - 1) + 1) = idx + 2 * j + 1 := by
      rcases j with _ | m2
      · simp
      · rw [if_neg (Nat.succ_ne_zero m2)]
        omega
    constructor
    · rw [e1, e2, if_neg (Nat.succ_ne_zero j)]
      simp only [condSegG, List.getElem?_cons_succ]
      rw [ih.1, hval1]
    · rw [e3, e1]
      simp only [condSegG, List.getElem?_cons_succ]
      rw [ih.2]

/-- The layer graph built by PixelCNN, src/pixelcnn/pixelcnn.py lines 17
to 121, statement by statement: the image input (a (height, width)
discrete image, or a (height, width, filters) continuous feature map);
when discrete, the embedding with output_size rows and filters columns;
the border padding; the (2, 3) down-shifted convolution and down shift
forming the initial top stream; the (1, 3) down-shifted convolution plus
down shift and the (2, 1) down-right-shifted convolution plus right
shift, added to form the initial top-left stream; num_layers iterations
of the gated-block loop with no conditioning; the final concat_elu and
the 1 by 1 convolution with output_size filters.  Returns the graph and
the identifier of the logits node. -/
def buildPixelCNN (output_size image_height image_width : ℕ) (image_is_discrete : Bool)
    (num_layers filters : ℕ) (dropout_rate : ℚ) : Graph × ℕ :=
  let p0 := addNode [] ⟨.inputL (if image_is_discrete then [image_height, image_width]
                                 else [image_height, image_width, filters]), []⟩
  let p1 := if image_is_discrete then
              addNode p0.1 ⟨.embeddingL output_size filters, [p0.2]⟩
            else p0
  let p2 := addNode p1.1 ⟨.padBorderL, [p1.2]⟩
  let p3 := addNode p2.1 ⟨.dsConvL filters 2 3, [p2.2]⟩
  let p4 := addNode p3.1 ⟨.downShiftL, [p3.2]⟩
  let p5 := addNode p4.1 ⟨.dsConvL filters 1 3, [p2.2]⟩
  let p6 := addNode p5.1 ⟨.downShiftL, [p5.2]⟩
  let p7 := addNode p6.1 ⟨.drsConvL filters 2 1, [p2.2]⟩
  let p8 := addNode p7.1 ⟨.rightShiftL, [p7.2]⟩
  let p9 := addNode p8.1 ⟨.addL, [p6.2, p8.2]⟩
  let pl := pixelLoopG dropout_rate none num_layers p9.1 p4.2 p9.2
  let pe := addNode pl.1 ⟨.concatEluL, [pl.2.2]⟩
  let pf := addNode pe.1 ⟨.conv2dL output_size 1 1 1 1, [pe.2]⟩
  (pf.1, pf.2)

/-- The layer graph built by ConditionalPixelCNN, src/pixelcnn/pixelcnn.py
lines 124 to 275, statement by statement: the image input; the
conditional input (a (height, width) class-label map, or a (height,
width, conditional_vector_size) feature map); when class conditional, a
label embedding with num_classes rows; the conditional upsampling loop;
then the same image pipeline as PixelCNN, with the upsampled conditioning
node passed as the conditioning input h of every gated block. -/
def buildConditionalPixelCNN (output_size conditional_vector_size image_height image_width : ℕ)
    (image_is_discrete : Bool) (conditional_height conditional_width : ℕ)
    (class_conditional : Bool) (num_classes num_preprocess_layers num_layers filters : ℕ)
    (dropout_rate : ℚ) : Graph × ℕ :=
  let p0 := addNode [] ⟨.inputL (if image_is_discrete then [image_height, image_width]
                                 else [image_height, image_width, filters]), []⟩
  let q0 := addNode p0.1 ⟨.inputL (if class_conditional then
                                     [conditional_height, conditional_width]
                                   else [conditional_height, conditional_width,
                                         conditional_vector_size]), []⟩
  let q1 := if class_conditional then
              addNode q0.1 ⟨.embeddingL num_classes conditional_vector_size, [q0.2]⟩
            else q0
  let qc := condChainG filters num_preprocess_layers q1.1 q1.2
  let p1 := if image_is_discrete then
              addNode qc.1 ⟨.embeddingL output_size filters, [p0.2]⟩
            else (qc.1, p0.2)
  let p2 := addNode p1.1 ⟨.padBorderL, [p1.2]⟩
  let p3 := addNode p2.1 ⟨.dsConvL filters 2 3, [p2.2]⟩
  let p4 := addNode p3.1 ⟨.downShiftL, [p3.2]⟩
  let p5 := addNode p4.1 ⟨.dsConvL filters 1 3, [p2.2]⟩
  let p6 := addNode p5.1 ⟨.downShiftL, [p5.2]⟩
  let p7 := addNode p6.1 ⟨.drsConvL filters 2 1, [p2.2]⟩
  let p8 := addNode p7.1 ⟨.rightShiftL, [p7.2]⟩
  let p9 := addNode p8.1 ⟨.addL, [p6.2, p8.2]⟩
  let pl := pixelLoopG dropout_rate (some qc.2) num_layers p9.1 p4.2 p9.2
  let pe := addNode pl.1 ⟨.concatEluL, [pl.2.2]⟩
  let pf := addNode pe.1 ⟨.conv2dL output_size 1 1 1 1, [pe.2]⟩
  (pf.1, pf.2)

/-- The ten nodes of the discrete PixelCNN graph that precede the main
loop. -/
def pcnnPrefixD (output_size image_height image_width filters : ℕ) : Graph :=
  [⟨.inputL [image_height, image_width], []⟩,
   ⟨.embeddingL output_size filters, [0]⟩,
   ⟨.padBorderL, [1]⟩,
   ⟨.dsConvL filters 2 3, [2]⟩,
   ⟨.downShiftL, [3]⟩,
   ⟨.dsConvL filters 1 3, [2]⟩,
   ⟨.downShiftL, [5]⟩,
   ⟨.drsConvL filters 2 1, [2]⟩,
   ⟨.rightShiftL, [7]⟩,
   ⟨.addL, [6, 8]⟩]

lemma buildPixelCNN_true_eq (os ih iw L F : ℕ) (dr : ℚ) :
    buildPixelCNN os ih iw true L F dr
      = (pcnnPrefixD os ih iw F ++ loopNodesG dr none L 10 4 9
          ++ [⟨.concatEluL, [(loopEndsG L 10 4 9).2]⟩,
              ⟨.conv2dL os 1 1 1 1, [10 + 2 * L]⟩],
         10 + 2 * L + 1) := by
  simp only [buildPixelCNN, addNode, if_true, List.append_assoc, List.cons_append,
    List.nil_append, List.length_append, List.length_cons, List.length_nil]
  rw [pixelLoopG_eq]
  simp only [List.length_cons, List.length_nil, loopNodesG_length,
    List.length_append, List.append_assoc, List.cons_append, List.nil_append,
    pcnnPrefixD]
  norm_num
  omega

/-- The nodes of the discrete class-conditional ConditionalPixelCNN graph
that lie between the conditional upsampling chain and the main loop, as a
function of the length cl of the chain. -/
def cpcnnMid (output_size filters cl : ℕ) : Graph :=
  [⟨.embeddingL output_size filters, [0]⟩,
   ⟨.padBorderL, [cl + 3]⟩,
   ⟨.dsConvL filters 2 3, [cl + 4]⟩,
   ⟨.downShiftL, [cl + 5]⟩,
   ⟨.dsConvL filters 1 3, [cl + 4]⟩,
   ⟨.downShiftL, [cl + 7]⟩,
   ⟨.drsConvL filters 2 1, [cl + 4]⟩,
   ⟨.rightShiftL, [cl + 9]⟩,
   ⟨.addL, [cl + 8, cl + 10]⟩]

lemma buildConditionalPixelCNN_tt_eq (os cvs ih iw ch cw nc npre L F : ℕ) (dr : ℚ) :
    buildConditionalPixelCNN os cvs ih iw true ch cw true nc npre L F dr
      = ([⟨.inputL [ih, iw], []⟩, ⟨.inputL [ch, cw], []⟩,
          ⟨.embeddingL nc cvs, [1]⟩]
          ++ condChainNodes F 2 3 npre
          ++ cpcnnMid os F (condChainLen npre)
          ++ loopNodesG dr (some (condChainEnd 2 3 npre)) L
               (condChainLen npre + 12) (condChainLen npre + 6) (condChainLen npre + 11)
          ++ [⟨.concatEluL, [(loopEndsG L (condChainLen npre + 12)
                (condChainLen npre + 6) (condChainLen npre + 11)).2]⟩,
              ⟨.conv2dL os 1 1 1 1, [condChainLen npre + 2 * L + 12]⟩],
         condChainLen npre + 2 * L + 13) := by
  simp only [buildConditionalPixelCNN, addNode, if_true, condChainG_eq,
    List.append_assoc, List.cons_append, List.nil_append,
    List.length_append, List.length_cons, List.length_nil,
    condChainNodes_length]
  rw [pixelLoopG_eq]
  simp only [List.length_cons, List.length_nil, loopNodesG_length,
    List.length_append, List.append_assoc, List.cons_append, List.nil_append,
    condChainNodes_length, cpcnnMid]
  norm_num
  ring_nf

/-- Shape effect of one iteration of the conditional upsampling loop of
src/pixelcnn/pixelcnn.py lines 192 to 201: when the index is positive the
concatenated ELU doubles the channels first; the transposed convolution
with strides (2, 2) and same padding then doubles the spatial size and
sets the channel count to filters. -/
def condStepShape (filters : ℕ) (s : Shape) (i : ℕ) : Shape :=
  conv2dTranspose_same_shape filters 2 2 (if 0 < i then concat_elu_shape s else s)

/-- Shape of the upsampled conditioning tensor after the whole loop. -/
def condChainShape (filters n : ℕ) (s : Shape) : Shape :=
  (List.range n).foldl (condStepShape filters) s

lemma condShapeFoldl_pos (F : ℕ) :
    ∀ (l : List ℕ), (∀ i ∈ l, 0 < i) → ∀ (s : Shape),
      l.foldl (condStepShape F) s
        = ⟨s.height * 2 ^ l.length, s.width * 2 ^ l.length,
           if l.length = 0 then s.channels else F⟩
  | [], _, s => by cases s; simp
  | i :: l, hl, s => by
    have hi : 0 < i := hl i (List.mem_cons_self i l)
    have ih := condShapeFoldl_pos F l (fun x hx => hl x (List.mem_cons_of_mem i hx))
      ⟨s.height * 2, s.width * 2, F⟩
    rw [List.foldl_cons]
    have h0 : condStepShape F s i = ⟨s.height * 2, s.width * 2, F⟩ := by
      simp [condStepShape, conv2dTranspose_same_shape, concat_elu_shape, if_pos hi]
    rw [h0, ih]
    simp only [List.length_cons, Nat.succ_ne_zero, if_false, ite_self, Shape.mk.injEq]
    refine ⟨by ring, by ring, trivial⟩

lemma condChainShape_eq (F n : ℕ) (s : Shape) (hn : 1 ≤ n) :
    condChainShape F n s = ⟨s.height * 2 ^ n, s.width * 2 ^ n, F⟩ := by
  rcases n with _ | m
  · omega
  unfold condChainShape
  rw [List.range_succ_eq_map, List.foldl_cons]
  have h0 : condStepShape F s 0 = ⟨s.height * 2, s.width * 2, F⟩ := by
    simp [condStepShape, conv2dTranspose_same_shape]
  have hpos : ∀ i ∈ (List.range m).map Nat.succ, 0 < i := by
    intro i hi
    rcases List.mem_map.mp hi with ⟨x, _, rfl⟩
    exact Nat.succ_pos x
  rw [h0, condShapeFoldl_pos F ((List.range m).map Nat.succ) hpos]
  simp only [List.length_map, List.length_range, ite_self, Shape.mk.injEq]
  refine ⟨by ring, by ring, trivial⟩

lemma gated_kind_excl (nd : GNode) (h : isGatedB nd = true) :
    isConvTB nd = false ∧ isEluB nd = false := by
  cases hop : nd.op <;> simp [isGatedB, isConvTB, isEluB, hop] at h ⊢

lemma countP_zero_of_all (p : GNode → Bool) (l : Graph)
    (h : ∀ nd ∈ l, p nd = false) : List.countP p l = 0 :=
  List.countP_eq_zero.mpr fun a ha => by simp [h a ha]

lemma cpcnnMid_length (os F cl : ℕ) : (cpcnnMid os F cl).length = 9 := rfl

lemma buildConditionalPixelCNN_tt_graph (os cvs ih iw ch cw nc npre L F : ℕ) (dr : ℚ) :
    (buildConditionalPixelCNN os cvs ih iw true ch cw true nc npre L F dr).1
      = [⟨.inputL [ih, iw], []⟩, ⟨.inputL [ch, cw], []⟩, ⟨.embeddingL nc cvs, [1]⟩]
          ++ condChainNodes F 2 3 npre
          ++ cpcnnMid os F (condChainLen npre)
          ++ loopNodesG dr (some (condChainEnd 2 3 npre)) L
               (condChainLen npre + 12) (condChainLen npre + 6) (condChainLen npre + 11)
          ++ [⟨.concatEluL, [(loopEndsG L (condChainLen npre + 12)
                (condChainLen npre + 6) (condChainLen npre + 11)).2]⟩,
              ⟨.conv2dL os 1 1 1 1, [condChainLen npre + 2 * L + 12]⟩] := by
  rw [buildConditionalPixelCNN_tt_eq]

lemma cond_graph_chain_getElem (os cvs ih iw ch cw nc npre L F : ℕ) (dr : ℚ) (t : ℕ)
    (ht : t < condChainLen npre) :
    ((buildConditionalPixelCNN os cvs ih iw true ch cw true nc npre L F dr).1)[3 + t]? =
      (condChainNodes F 2 3 npre)[t]? := by
  rw [buildConditionalPixelCNN_tt_graph]
  rw [List.getElem?_append_left (by
    simp [List.length_append, condChainNodes_length, cpcnnMid_length, loopNodesG_length]
    omega)]
  rw [List.getElem?_append_left (by
    simp [List.length_append, condChainNodes_length, cpcnnMid_length]
    omega)]
  rw [List.getElem?_append_left (by
    simp [List.length_append, condChainNodes_length]
    omega)]
  rw [List.getElem?_append_right (by simp)]
  simp

lemma condChainLen_pos {npre : ℕ} (hn : 1 ≤ npre) : 1 ≤ condChainLen npre := by
  rcases npre with _ | m
  · omega
  · simp only [condChainLen]
    omega

/-- C5.  In ConditionalPixelCNN (discrete, class-conditional form), the
conditioning input passes through num_preprocess_layers stride-2
transposed convolutions — the first applied directly to the conditional
embedding at node 3, the concatenated ELU interposed exactly between
consecutive stages — and the result has spatial size
(conditional_height * 2 ^ num_preprocess_layers,
conditional_width * 2 ^ num_preprocess_layers), equal to the image
resolution under the stated hypotheses; the whole graph contains exactly
num_preprocess_layers transposed convolutions and
num_preprocess_layers - 1 chain nonlinearities plus the single final one,
and exactly 2 * num_layers gated blocks, every one of which receives the
final upsampled conditioning node as its h argument. -/
theorem conditional_upsampling_injection
    (os cvs ih iw ch cw nc npre L F : ℕ) (dr : ℚ)
    (hn : 1 ≤ npre) (hh : ch * 2 ^ npre = ih) (hw : cw * 2 ^ npre = iw) :
    condChainShape F npre ⟨ch, cw, cvs⟩ = ⟨ih, iw, F⟩ ∧
    List.countP isConvTB
      (buildConditionalPixelCNN os cvs ih iw true ch cw true nc npre L F dr).1 = npre ∧
    List.countP isEluB
      (buildConditionalPixelCNN os cvs ih iw true ch cw true nc npre L F dr).1
      = (npre - 1) + 1 ∧
    ((buildConditionalPixelCNN os cvs ih iw true ch cw true nc npre L F dr).1)[3]? =
      some ⟨.convTransposeL F 5 5 2 2, [2]⟩ ∧
    (∀ k, 1 ≤ k → k < npre →
      ((buildConditionalPixelCNN os cvs ih iw true ch cw true nc npre L F dr).1)[2 + 2 * k]? =
        some ⟨.concatEluL, [2 * k + 1]⟩ ∧
      ((buildConditionalPixelCNN os cvs ih iw true ch cw true nc npre L F dr).1)[3 + 2 * k]? =
        some ⟨.convTransposeL F 5 5 2 2, [2 + 2 * k]⟩) ∧
    List.countP isGatedB
      (buildConditionalPixelCNN os cvs ih iw true ch cw true nc npre L F dr).1 = 2 * L ∧
    (∀ nd ∈ (buildConditionalPixelCNN os cvs ih iw true ch cw true nc npre L F dr).1,
      isGatedB nd = true → gatedHOf nd = some (condChainEnd 2 3 npre)) := by
  have hshape : condChainShape F npre ⟨ch, cw, cvs⟩ = ⟨ih, iw, F⟩ := by
    rw [condChainShape_eq F npre ⟨ch, cw, cvs⟩ hn]
    simp [hh, hw]
  have hloopT : List.countP isConvTB
      (loopNodesG dr (some (condChainEnd 2 3 npre)) L
        (condChainLen npre + 12) (condChainLen npre + 6) (condChainLen npre + 11)) = 0 :=
    countP_zero_of_all _ _ (fun nd hnd =>
      (gated_kind_excl nd (loopNodesG_gated dr _ L _ _ _ nd hnd).1).1)
  have hloopE : List.countP isEluB
      (loopNodesG dr (some (condChainEnd 2 3 npre)) L
        (condChainLen npre + 12) (condChainLen npre + 6) (condChainLen npre + 11)) = 0 :=
    countP_zero_of_all _ _ (fun nd hnd =>
      (gated_kind_excl nd (loopNodesG_gated dr _ L _ _ _ nd hnd).1).2)
  have hcntT : List.countP isConvTB
      (buildConditionalPixelCNN os cvs ih iw true ch cw true nc npre L F dr).1 = npre := by
    rw [buildConditionalPixelCNN_tt_graph]
    simp only [List.countP_append]
    rw [condChainNodes_countConvT, hloopT]
    simp [List.countP_cons, isConvTB, cpcnnMid]
  have hcntE : List.countP isEluB
      (buildConditionalPixelCNN os cvs ih iw true ch cw true nc npre L F dr).1
      = (npre - 1) + 1 := by
    rw [buildConditionalPixelCNN_tt_graph]
    simp only [List.countP_append]
    rw [condChainNodes_countElu, hloopE]
    simp [List.countP_cons, isEluB, cpcnnMid]
  have hfirst : ((buildConditionalPixelCNN os cvs ih iw true ch cw true nc npre L F dr).1)[3]? =
      some ⟨.convTransposeL F 5 5 2 2, [2]⟩ := by
    have h3 : (3 : ℕ) = 3 + 0 := rfl
    rw [h3, cond_graph_chain_getElem os cvs ih iw ch cw nc npre L F dr 0
      (condChainLen_pos hn)]
    rcases npre with _ | m
    · omega
    · simp [condChainNodes]
  have hgap : ∀ k, 1 ≤ k → k < npre →
      ((buildConditionalPixelCNN os cvs ih iw true ch cw true nc npre L F dr).1)[2 + 2 * k]? =
        some ⟨.concatEluL, [2 * k + 1]⟩ ∧
      ((buildConditionalPixelCNN os cvs ih iw true ch cw true nc npre L F dr).1)[3 + 2 * k]? =
        some ⟨.convTransposeL F 5 5 2 2, [2 + 2 * k]⟩ := by
    intro k hk1 hk2
    rcases npre with _ | m
    · omega
    have hcl : condChainLen (m + 1) = 2 * m + 1 := rfl
    constructor
    · have e1 : 2 + 2 * k = 3 + (2 * k - 1) := by omega
      rw [e1, cond_graph_chain_getElem os cvs ih iw ch cw nc (m + 1) L F dr (2 * k - 1)
        (by omega)]
      have e2 : 2 * k - 1 = (2 * (k - 1)) + 1 := by omega
      rw [e2]
      simp only [condChainNodes, List.getElem?_cons_succ]
      rw [(condSegG_getElem F m 3 4 (k - 1) (by omega)).1]
      rcases k with _ | k2
      · omega
      rcases k2 with _ | k3
      · norm_num
      · have hc : k3 + 1 + 1 - 1 ≠ 0 := by omega
        rw [if_neg hc]
        have e3 : 4 + 2 * (k3 + 1 + 1 - 1 - 1) + 1 = 2 * (k3 + 1 + 1) + 1 := by omega
        rw [e3]
    · have e1 : (3 : ℕ) + 2 * k = 3 + (2 * k) := rfl
      rw [e1, cond_graph_chain_getElem os cvs ih iw ch cw nc (m + 1) L F dr (2 * k)
        (by omega)]
      have e2 : 2 * k = (2 * (k - 1) + 1) + 1 := by omega
      rw [e2]
      simp only [condChainNodes, List.getElem?_cons_succ]
      rw [(condSegG_getElem F m 3 4 (k - 1) (by omega)).2]
      have e4 : 2 + (2 * (k - 1) + 1 + 1) = 4 + 2 * (k - 1) := by omega
      rw [e4]
  have hcntG : List.countP isGatedB
      (buildConditionalPixelCNN os cvs ih iw true ch cw true nc npre L F dr).1 = 2 * L := by
    rw [buildConditionalPixelCNN_tt_graph]
    simp only [List.countP_append]
    rw [loopNodesG_countGated,
      countP_zero_of_all isGatedB (condChainNodes F 2 3 npre)
        (fun nd hnd => (condChainNodes_kinds F 2 3 npre nd hnd).1)]
    simp [List.countP_cons, isGatedB, cpcnnMid]
  have hinj : ∀ nd ∈ (buildConditionalPixelCNN os cvs ih iw true ch cw true nc npre L F dr).1,
      isGatedB nd = true → gatedHOf nd = some (condChainEnd 2 3 npre) := by
    intro nd hmem hg
    rw [buildConditionalPixelCNN_tt_graph] at hmem
    simp only [List.mem_append] at hmem
    rcases hmem with ((((h1 | h2) | h3) | h4) | h5)
    · simp only [List.mem_cons, List.not_mem_nil, or_false] at h1
      rcases h1 with rfl | rfl | rfl <;> simp [isGatedB] at hg
    · rw [(condChainNodes_kinds F 2 3 npre nd h2).1] at hg
      exact absurd hg (by simp)
    · simp only [cpcnnMid, List.mem_cons, List.not_mem_nil, or_false] at h3
      rcases h3 with rfl | rfl | rfl | rfl | rfl | rfl | rfl | rfl | rfl <;>
        simp [isGatedB] at hg
    · exact (loopNodesG_gated dr _ L _ _ _ nd h4).2
    · simp only [List.mem_cons, List.not_mem_nil, or_false] at h5
      rcases h5 with rfl | rfl <;> simp [isGatedB] at hg
  exact ⟨hshape, hcntT, hcntE, hfirst, hgap, hcntG, hinj⟩

theorem conditional_upsampling_injection_witness :
    condChainShape 3 1 ⟨1, 1, 5⟩ = ⟨2, 2, 3⟩ ∧
    List.countP isConvTB (buildConditionalPixelCNN 4 5 2 2 true 1 1 true 10 1 1 3 (1 / 10)).1 = 1 ∧
    List.countP isEluB (buildConditionalPixelCNN 4 5 2 2 true 1 1 true 10 1 1 3 (1 / 10)).1
      = 1 - 1 + 1 ∧
    ((buildConditionalPixelCNN 4 5 2 2 true 1 1 true 10 1 1 3 (1 / 10)).1)[3]? =
      some ⟨.convTransposeL 3 5 5 2 2, [2]⟩ ∧
    (∀ k, 1 ≤ k → k < 1 →
      ((buildConditionalPixelCNN 4 5 2 2 true 1 1 true 10 1 1 3 (1 / 10)).1)[2 + 2 * k]? =
        some ⟨.concatEluL, [2 * k + 1]⟩ ∧
      ((buildConditionalPixelCNN 4 5 2 2 true 1 1 true 10 1 1 3 (1 / 10)).1)[3 + 2 * k]? =
        some ⟨.convTransposeL 3 5 5 2 2, [2 + 2 * k]⟩) ∧
    List.countP isGatedB (buildConditionalPixelCNN 4 5 2 2 true 1 1 true 10 1 1 3 (1 / 10)).1
      = 2 * 1 ∧
    (∀ nd ∈ (buildConditionalPixelCNN 4 5 2 2 true 1 1 true 10 1 1 3 (1 / 10)).1,
      isGatedB nd = true → gatedHOf nd = some (condChainEnd 2 3 1)) :=
  conditional_upsampling_injection 4 5 2 2 1 1 10 1 1 3 (1 / 10)
    (by decide) (by decide) (by decide)

/-- Indexing into a graph of the form prefix, loop segment, suffix: the
gated nodes of iteration j sit at positions base + 2 j and
base + 2 j + 1, where base is the prefix length. -/
lemma append_loop_getElem (P S : Graph) (dr : ℚ) (hA : Option ℕ) (L top0 tl0 j : ℕ)
    (hj : j < L) :
    (P ++ loopNodesG dr hA L P.length top0 tl0 ++ S)[P.length + 2 * j]? =
      some ⟨.gatedL true 2 3 none hA dr, [if j = 0 then top0 else P.length + 2 * (j - 1)]⟩ ∧
    (P ++ loopNodesG dr hA L P.length top0 tl0 ++ S)[P.length + 2 * j + 1]? =
      some ⟨.gatedL false 2 2 (some (P.length + 2 * j)) hA dr,
            [if j = 0 then tl0 else P.length + 2 * j - 1]⟩ := by
  have hlen := loopNodesG_length dr hA L P.length top0 tl0
  have hidx := loopNodesG_getElem dr hA L P.length top0 tl0 j hj
  constructor
  · rw [List.append_assoc, List.getElem?_append_right (by omega)]
    have e : P.length + 2 * j - P.length = 2 * j := by omega
    rw [e, List.getElem?_append_left (by omega)]
    exact hidx.1
  · rw [List.append_assoc, List.getElem?_append_right (by omega)]
    have e : P.length + 2 * j + 1 - P.length = 2 * j + 1 := by omega
    rw [e, List.getElem?_append_left (by omega)]
    exact hidx.2

lemma buildPixelCNN_true_graph (os ih iw L F : ℕ) (dr : ℚ) :
    (buildPixelCNN os ih iw true L F dr).1
      = pcnnPrefixD os ih iw F ++ loopNodesG dr none L 10 4 9
          ++ [⟨.concatEluL, [(loopEndsG L 10 4 9).2]⟩,
              ⟨.conv2dL os 1 1 1 1, [10 + 2 * L]⟩] := by
  rw [buildPixelCNN_true_eq]

/-- C6.  In every iteration j of the main loop of both PixelCNN and
ConditionalPixelCNN, the top stream passes first through a gated block
with the down-shifted convolution whose auxiliary input a is absent and
whose primary input is the previous top-stream node (the initial top
stream for j = 0, the top gated block of iteration j - 1 otherwise), so
the top stream is never fed from the top-left stream; and the top-left
gated block of the same iteration, created immediately after, receives
precisely that freshly created top gated block as its auxiliary input a. -/
theorem gated_block_wiring (os ih iw L F : ℕ) (dr : ℚ)
    (cvs ch cw nc npre : ℕ) (j : ℕ) (hj : j < L) :
    (((buildPixelCNN os ih iw true L F dr).1)[10 + 2 * j]? =
        some ⟨.gatedL true 2 3 none none dr, [if j = 0 then 4 else 10 + 2 * (j - 1)]⟩ ∧
      ((buildPixelCNN os ih iw true L F dr).1)[10 + 2 * j + 1]? =
        some ⟨.gatedL false 2 2 (some (10 + 2 * j)) none dr,
              [if j = 0 then 9 else 10 + 2 * j - 1]⟩) ∧
    (((buildConditionalPixelCNN os cvs ih iw true ch cw true nc npre L F dr).1)[condChainLen npre + 12 + 2 * j]? =
        some ⟨.gatedL true 2 3 none (some (condChainEnd 2 3 npre)) dr,
              [if j = 0 then condChainLen npre + 6 else condChainLen npre + 12 + 2 * (j - 1)]⟩ ∧
      ((buildConditionalPixelCNN os cvs ih iw true ch cw true nc npre L F dr).1)[condChainLen npre + 12 + 2 * j + 1]? =
        some ⟨.gatedL false 2 2 (some (condChainLen npre + 12 + 2 * j))
                (some (condChainEnd 2 3 npre)) dr,
              [if j = 0 then condChainLen npre + 11 else condChainLen npre + 12 + 2 * j - 1]⟩) := by
  constructor
  · have h := append_loop_getElem (pcnnPrefixD os ih iw F)
      [⟨.concatEluL, [(loopEndsG L 10 4 9).2]⟩, ⟨.conv2dL os 1 1 1 1, [10 + 2 * L]⟩]
      dr none L 4 9 j hj
    rw [show (pcnnPrefixD os ih iw F).length = 10 from rfl] at h
    rw [buildPixelCNN_true_graph]
    exact h
  · have h := append_loop_getElem
      ([⟨.inputL [ih, iw], []⟩, ⟨.inputL [ch, cw], []⟩, ⟨.embeddingL nc cvs, [1]⟩]
        ++ condChainNodes F 2 3 npre ++ cpcnnMid os F (condChainLen npre))
      [⟨.concatEluL, [(loopEndsG L (condChainLen npre + 12)
          (condChainLen npre + 6) (condChainLen npre + 11)).2]⟩,
       ⟨.conv2dL os 1 1 1 1, [condChainLen npre + 2 * L + 12]⟩]
      dr (some (condChainEnd 2 3 npre)) L (condChainLen npre + 6) (condChainLen npre + 11) j hj
    have hPlen : ([(⟨.inputL [ih, iw], []⟩ : GNode), ⟨.inputL [ch, cw], []⟩,
        ⟨.embeddingL nc cvs, [1]⟩]
        ++ condChainNodes F 2 3 npre ++ cpcnnMid os F (condChainLen npre)).length
        = condChainLen npre + 12 := by
      simp only [List.length_append, List.length_cons, List.length_nil,
        condChainNodes_length, cpcnnMid_length]
      omega
    rw [hPlen] at h
    rw [buildConditionalPixelCNN_tt_graph]
    exact h

theorem gated_block_wiring_witness :
    (((buildPixelCNN 4 2 2 true 1 3 (1 / 10)).1)[10]? =
        some ⟨.gatedL true 2 3 none none (1 / 10), [4]⟩ ∧
      ((buildPixelCNN 4 2 2 true 1 3 (1 / 10)).1)[11]? =
        some ⟨.gatedL false 2 2 (some 10) none (1 / 10), [9]⟩) ∧
    (((buildConditionalPixelCNN 4 5 2 2 true 1 1 true 10 1 1 3 (1 / 10)).1)[13]? =
        some ⟨.gatedL true 2 3 none (some 3) (1 / 10), [7]⟩ ∧
      ((buildConditionalPixelCNN 4 5 2 2 true 1 1 true 10 1 1 3 (1 / 10)).1)[14]? =
        some ⟨.gatedL false 2 2 (some 13) (some 3) (1 / 10), [12]⟩) :=
  gated_block_wiring 4 2 2 1 3 (1 / 10) 5 1 1 10 1 0 (by decide)

/-- C10.  When image_is_discrete is false, the image input declared by
PixelCNN and by ConditionalPixelCNN (for either kind of conditioning) has
shape (image_height, image_width, filters): its channel depth is the
filters hyperparameter, not an independently chosen count. -/
theorem continuous_input_channels (os ih iw L F : ℕ) (dr : ℚ)
    (cvs ch cw nc npre : ℕ) (cc : Bool) :
    ((buildPixelCNN os ih iw false L F dr).1)[0]? = some ⟨.inputL [ih, iw, F], []⟩ ∧
    ((buildConditionalPixelCNN os cvs ih iw false ch cw cc nc npre L F dr).1)[0]? =
      some ⟨.inputL [ih, iw, F], []⟩ := by
  constructor
  · simp [buildPixelCNN, addNode, pixelLoopG_eq]
  · cases cc <;>
      simp [buildConditionalPixelCNN, addNode, pixelLoopG_eq, condChainG_eq]

/-!  The training driver, src/scripts/train.py, as a trace of events.  -/

/-- Observable events of the training driver: one network construction,
one optimizer step per batch, and checkpoint writes. -/
inductive TrainEvent where
  | buildModel (g : Graph × ℕ)
  | optStep (i : ℕ)
  | save (i : ℕ) (path : String)
deriving DecidableEq

/-- Modelled from the spec: the repository module defining
ConditionalPixelCNNPlusPlus is not under src/ (only its caller
src/scripts/train.py is).  Spec section 6: the construction API is a
family of factory functions taking an output cardinality, spatial
dimensions, layer and filter counts and a dropout rate, and returning a
callable graph from (image, conditioning) to logits.  The PixelCNN++
variant stacks num_modules modules of num_layers_per_module gated layers
each; it is modelled as the conditional graph with
num_modules * num_layers_per_module gated-block iterations. -/
def ConditionalPixelCNNPlusPlus (output_size conditional_vector_size image_height
    image_width conditional_height conditional_width num_preprocess_layers num_modules
    num_layers_per_module filters : ℕ) (dropout_rate : ℚ)
    (class_conditional : Bool) (num_classes : ℕ) : Graph × ℕ :=
  buildConditionalPixelCNN output_size conditional_vector_size image_height image_width
    true conditional_height conditional_width class_conditional num_classes
    num_preprocess_layers (num_modules * num_layers_per_module) filters dropout_rate

/-- The single network instantiated by src/scripts/train.py lines 13 to
26, with the literal arguments of the script. -/
def trainScriptModel : Graph × ℕ :=
  ConditionalPixelCNNPlusPlus 1000 32 32 32 1 1 5 3 6 64 (1 / 10) true 10

/-- One iteration of the training loop, src/scripts/train.py lines 34 to
59: one optimizer step for the batch, then a checkpoint write to
models/model.h5 exactly when the iteration index i satisfies
i % 100 = 0. -/
def trainStep (i : ℕ) : List TrainEvent :=
  .optStep i :: (if i % 100 = 0 then [.save i "models/model.h5"] else [])

/-- The whole training driver: build one model, then fold the loop body
over the enumerated batches. -/
def trainScript (numBatches : ℕ) : List TrainEvent :=
  .buildModel trainScriptModel :: (List.range numBatches).flatMap trainStep

/-- An event is a network construction. -/
def isBuildE : TrainEvent → Bool
  | .buildModel _ => true
  | _ => false

/-- An event is an optimizer step. -/
def isOptE : TrainEvent → Bool
  | .optStep _ => true
  | _ => false

lemma trainStep_counts (i : ℕ) :
    List.countP isBuildE (trainStep i) = 0 ∧ List.countP isOptE (trainStep i) = 1 := by
  unfold trainStep
  split <;> simp [List.countP_cons, isBuildE, isOptE]

lemma trainLoop_counts :
    ∀ n : ℕ, List.countP isBuildE ((List.range n).flatMap trainStep) = 0 ∧
      List.countP isOptE ((List.range n).flatMap trainStep) = n
  | 0 => by simp
  | n + 1 => by
    have ih := trainLoop_counts n
    rw [List.range_succ]
    simp only [List.flatMap_append, List.countP_append, List.flatMap_cons, List.flatMap_nil,
      List.append_nil]
    rw [ih.1, ih.2, (trainStep_counts n).1, (trainStep_counts n).2]
    omega

/-- C2.  The training driver calls the construction-API factory exactly
once — the first event is the construction of the one network, with the
literal arguments of the script — and applies exactly one optimizer step
per batch; the factory produces the conditional layer graph (three
modules of six gated layers each). -/
theorem train_driver_structure (numBatches : ℕ) :
    List.countP isBuildE (trainScript numBatches) = 1 ∧
    (trainScript numBatches).head? = some (.buildModel trainScriptModel) ∧
    List.countP isOptE (trainScript numBatches) = numBatches ∧
    trainScriptModel
      = buildConditionalPixelCNN 1000 32 32 32 true 1 1 true 10 5 (3 * 6) 64 (1 / 10) := by
  refine ⟨?_, rfl, ?_, rfl⟩
  · unfold trainScript
    rw [List.countP_cons]
    rw [(trainLoop_counts numBatches).1]
    simp [isBuildE]
  · unfold trainScript
    rw [List.countP_cons]
    rw [(trainLoop_counts numBatches).2]
    simp [isOptE]

/-- C8.  A checkpoint write occurs in the training driver exactly at the
iterations i with i % 100 = 0 (hence once every 100 steps, including
iteration 0), and every write goes to the one fixed relative path
models/model.h5, overwriting it in place; no other iteration writes. -/
theorem checkpoint_schedule (numBatches i : ℕ) (p : String) :
    TrainEvent.save i p ∈ trainScript numBatches ↔
      (i < numBatches ∧ i % 100 = 0 ∧ p = "models/model.h5") := by
  constructor
  · intro h
    rcases List.mem_cons.mp h with h0 | hb
    · exact absurd h0 (by simp)
    · rcases List.mem_flatMap.mp hb with ⟨a, ha, hmem⟩
      rcases List.mem_cons.mp hmem with h1 | h2
      · exact absurd h1 (by simp)
      · by_cases hmod : a % 100 = 0
        · rw [if_pos hmod] at h2
          rcases List.mem_singleton.mp h2 with h3
          injection h3 with hi hp
          subst hi
          subst hp
          exact ⟨List.mem_range.mp ha, hmod, rfl⟩
        · rw [if_neg hmod] at h2
          exact absurd h2 (List.not_mem_nil _)
  · rintro ⟨hin, hmod, rfl⟩
    refine List.mem_cons_of_mem _ (List.mem_flatMap.mpr ⟨i, List.mem_range.mpr hin, ?_⟩)
    unfold trainStep
    rw [if_pos hmod]
    exact List.mem_cons_of_mem _ (List.mem_singleton.mpr rfl)

end Pcnn
